import Mathlib

/-!
Verification development for the httpflow launcher plugin (`main.py`).

The plugin forwards a user query to a configurable HTTP server and renders
the JSON array response as result entries.  This file gives a shallow
embedding of the pure core of `HttpQueryForwarder`:

* the Python stdlib URL helpers the plugin calls (`quote_plus`,
  `unquote_plus`, `parse_qsl`, `urlencode`, `urlsplit`, `urlunsplit`,
  hostname/port extraction) modelled over `List Char` / `String`;
* the settings merge of `_get_settings_from_file` over parsed YAML values;
* URL construction, response mapping and error-to-result mapping of
  `query`, and `context_menu`.

Python strings are modelled as Lean `String` (sequences of Unicode scalar
values, matching Python `str` up to surrogates).  Machine-level details
that the plugin never exercises (non-UTF-8 decoding fallbacks, YAML floats,
IPv6 bracket validation, NFKC netloc checks) are noted where simplified.
Python exceptions are modelled by `Except`; filesystem-dependent icon
resolution and the host's method table are abstracted as parameters.
-/

namespace HttpFlow

/-! ## Generic list/string helpers (Python semantics) -/

/-- Python whitespace for `str.strip()` / `int()` (ASCII subset). -/
def isPyWs (c : Char) : Bool :=
  c = ' ' ∨ c = '\t' ∨ c = '\n' ∨ c = '\r' ∨ c = '\x0b' ∨ c = '\x0c'

/-- Drop trailing characters satisfying `p`. -/
def dropTrail (p : Char → Bool) (l : List Char) : List Char :=
  (l.reverse.dropWhile p).reverse

/-- Python `str.strip()` (whitespace on both ends). -/
def pstrip (s : String) : String :=
  ⟨dropTrail isPyWs (s.data.dropWhile isPyWs)⟩

/-- Split a character list on every occurrence of `sep` (like Python
`str.split(sep)` for a one-character separator). -/
def splitOnChar (sep : Char) : List Char → List (List Char)
  | [] => [[]]
  | c :: rest =>
    if c = sep then [] :: splitOnChar sep rest
    else
      match splitOnChar sep rest with
      | h :: t => (c :: h) :: t
      | [] => [[c]]

/-- Split at the first occurrence of `sep`: `(before, some after)`, or
`(whole, none)` when `sep` does not occur (Python `str.partition`). -/
def partitionChar (sep : Char) : List Char → List Char × Option (List Char)
  | [] => ([], none)
  | c :: rest =>
    if c = sep then ([], some rest)
    else
      let r := partitionChar sep rest
      (c :: r.1, r.2)

/-- Split at the first `=` (Python `str.split('=', 1)`). -/
def splitFirstEq : List Char → Option (List Char × List Char)
  | [] => none
  | c :: rest =>
    if c = '=' then some ([], rest)
    else (splitFirstEq rest).map (fun p => (c :: p.1, p.2))

/-- Substring test, Python `pat in s`. -/
def hasSubstrL (pat : List Char) : List Char → Bool
  | [] => pat.isEmpty
  | c :: rest => pat.isPrefixOf (c :: rest) || hasSubstrL pat rest

def hasSubstr (pat s : String) : Bool := hasSubstrL pat.data s.data

/-- Python `str.replace` for a non-empty pattern: replace non-overlapping
occurrences left to right.  Fuel-driven structural recursion; at each step
at least one character of the remaining text is consumed, so with fuel
equal to the text's length (`replaceL` below) the fuel never runs out.
(The plugin only replaces fixed non-empty placeholder literals, so the
empty-pattern case is irrelevant; it keeps the input unchanged.) -/
def replaceFuel (pat repl : List Char) : Nat → List Char → List Char
  | _, [] => []
  | 0, s => s
  | fuel + 1, c :: rest =>
    if pat ≠ [] ∧ pat.isPrefixOf (c :: rest) then
      repl ++ replaceFuel pat repl fuel ((c :: rest).drop pat.length)
    else
      c :: replaceFuel pat repl fuel rest

def replaceL (pat repl s : List Char) : List Char := replaceFuel pat repl s.length s

def replaceS (s pat repl : String) : String := ⟨replaceL pat.data repl.data s.data⟩

/-- Part of `netloc` after the last `@` (Python `rpartition('@')[2]`). -/
def afterLastAt (cs : List Char) : List Char :=
  (cs.reverse.takeWhile (· ≠ '@')).reverse

/-- Lowercase (ASCII, as in the URL code paths the plugin exercises). -/
def lowerL (cs : List Char) : List Char := cs.map Char.toLower

def lowerS (s : String) : String := ⟨lowerL s.data⟩

/-! ## Python `int()` on strings (base 10) -/

/-- Digit run with Python underscore rules (an underscore must sit between
digits), accumulating the value. -/
def digitsCore (acc : Nat) : List Char → Option Nat
  | [] => some acc
  | c :: rest =>
    if c.isDigit then digitsCore (acc * 10 + (c.toNat - '0'.toNat)) rest
    else if c = '_' then
      match rest with
      | d :: rest2 =>
        if d.isDigit then digitsCore (acc * 10 + (d.toNat - '0'.toNat)) rest2
        else none
      | [] => none
    else none

/-- A non-empty digit run (first character must be a digit). -/
def digitsVal (cs : List Char) : Option Nat :=
  match cs with
  | [] => none
  | c :: _ => if c.isDigit then digitsCore 0 cs else none

/-- Python `int(s)` on a string: optional surrounding whitespace, optional
sign, base-10 digits (underscores between digits allowed).  `none` models
`ValueError`. -/
def pyIntOfString (s : String) : Option Int :=
  let cs := dropTrail isPyWs (s.data.dropWhile isPyWs)
  match cs with
  | '+' :: rest => (digitsVal rest).map (fun n => (n : Int))
  | '-' :: rest => (digitsVal rest).map (fun n => -(n : Int))
  | rest => (digitsVal rest).map (fun n => (n : Int))

/-! ## Percent-encoding: `quote_plus` / `unquote_plus` -/

/-- Characters `quote_plus` leaves unescaped (ASCII alphanumerics and
`_.-~`); space is handled separately. -/
def isQuoteSafe (c : Char) : Bool :=
  c.isAlphanum ∨ c = '_' ∨ c = '.' ∨ c = '-' ∨ c = '~'

/-- Uppercase hex digit, as emitted by Python `quote`. -/
def hexDigit (n : Nat) : Char :=
  if n < 10 then Char.ofNat ('0'.toNat + n) else Char.ofNat ('A'.toNat + n - 10)

/-- Value of a hex digit (both cases accepted, as by `unquote`); stated on
the code point: digits are 48–57, `A`–`F` 65–70, `a`–`f` 97–102. -/
def hexVal (c : Char) : Option Nat :=
  let n := c.toNat
  if 48 ≤ n ∧ n ≤ 57 then some (n - 48)
  else if 65 ≤ n ∧ n ≤ 70 then some (n - 55)
  else if 97 ≤ n ∧ n ≤ 102 then some (n - 87)
  else none

/-- UTF-8 encoding of one scalar value. -/
def utf8EncodeChar (c : Char) : List Nat :=
  if c.toNat < 128 then [c.toNat]
  else if c.toNat < 2048 then [192 + c.toNat / 64, 128 + c.toNat % 64]
  else if c.toNat < 65536 then
    [224 + c.toNat / 4096, 128 + c.toNat / 64 % 64, 128 + c.toNat % 64]
  else
    [240 + c.toNat / 262144, 128 + c.toNat / 4096 % 64, 128 + c.toNat / 64 % 64,
      128 + c.toNat % 64]

/-- One percent-escaped byte, `%XX` with uppercase hex. -/
def pencByte (b : Nat) : List Char :=
  ['%', hexDigit (b / 16), hexDigit (b % 16)]

/-- `quote_plus` on one character: space becomes `+`, safe characters stay,
everything else is percent-escaped per UTF-8 byte. -/
def quotePlusChar (c : Char) : List Char :=
  if c = ' ' then ['+']
  else if isQuoteSafe c then [c]
  else (utf8EncodeChar c).flatMap pencByte

/-- Python `urllib.parse.quote_plus`. -/
def quote_plus (s : String) : String := ⟨s.data.flatMap quotePlusChar⟩

/-- Unicode replacement character (decoding with `errors='replace'`). -/
def uRepl : Char := Char.ofNat 0xFFFD

mutual

/-- Length-driven UTF-8 decoding of a byte run, lenient on malformed input
(the plugin never feeds it malformed runs; well-formed runs decode
exactly).  `utf8Dec2`/`utf8Dec3`/`utf8Dec4` consume the continuation bytes
of a 2/3/4-byte sequence whose lead byte is `b`. -/
def utf8Decode : List Nat → List Char
  | [] => []
  | b :: bs =>
    if b < 128 then Char.ofNat b :: utf8Decode bs
    else if b < 192 then uRepl :: utf8Decode bs
    else if b < 224 then utf8Dec2 b bs
    else if b < 240 then utf8Dec3 b bs
    else utf8Dec4 b bs

def utf8Dec2 (b : Nat) : List Nat → List Char
  | b1 :: bs1 => Char.ofNat ((b - 192) * 64 + b1 % 64) :: utf8Decode bs1
  | [] => [uRepl]

def utf8Dec3 (b : Nat) : List Nat → List Char
  | b1 :: b2 :: bs2 => Char.ofNat ((b - 224) * 4096 + b1 % 64 * 64 + b2 % 64) :: utf8Decode bs2
  | _ => [uRepl]

def utf8Dec4 (b : Nat) : List Nat → List Char
  | b1 :: b2 :: b3 :: bs3 =>
    Char.ofNat ((b - 240) * 262144 + b1 % 64 * 4096 + b2 % 64 * 64 + b3 % 64) :: utf8Decode bs3
  | _ => [uRepl]

end

/-- Core of `unquote`: scan the text, collect maximal runs of `%XX` escapes
into bytes (`acc`) and decode each finished run as UTF-8, keeping a `%` not
followed by two hex digits literal. -/
def unquoteAux : List Nat → List Char → List Char
  | acc, [] => utf8Decode acc
  | acc, '%' :: c1 :: c2 :: rest2 =>
    match hexVal c1, hexVal c2 with
    | some hi, some lo => unquoteAux (acc ++ [16 * hi + lo]) rest2
    | _, _ => utf8Decode acc ++ '%' :: unquoteAux [] (c1 :: c2 :: rest2)
  | acc, c :: rest => utf8Decode acc ++ c :: unquoteAux [] rest
termination_by _ cs => cs.length
decreasing_by all_goals simp_arith

/-- The `+` → space pass of `unquote_plus`. -/
def plusToSpace (c : Char) : Char := if c = '+' then ' ' else c

/-- Python `urllib.parse.unquote_plus` (UTF-8, `errors='replace'`). -/
def unquote_plus (s : String) : String :=
  ⟨unquoteAux [] (s.data.map plusToSpace)⟩

/-! ## `parse_qsl` and `urlencode` -/

/-- Python `urllib.parse.parse_qsl(qs, keep_blank_values=True)` with the
default `&` separator, as called by the plugin. -/
def parse_qsl (qs : String) : List (String × String) :=
  ((splitOnChar '&' qs.data).filter (· ≠ [])).map fun piece =>
    match splitFirstEq piece with
    | some (n, v) => (⟨unquoteAux [] (n.map plusToSpace)⟩, ⟨unquoteAux [] (v.map plusToSpace)⟩)
    | none => (⟨unquoteAux [] (piece.map plusToSpace)⟩, "")

/-- Python `urllib.parse.urlencode(pairs, doseq=True)` on string pairs:
quote-plus each key and value and join with `&`. -/
def urlencode (l : List (String × String)) : String :=
  ⟨List.intercalate ['&'] (l.map fun kv => (quote_plus kv.1).data ++ '=' :: (quote_plus kv.2).data)⟩

/-! ## `urlsplit` / `urlunsplit` -/

/-- The five components of `urllib.parse.SplitResult`. -/
structure SplitResult where
  scheme : String
  netloc : String
  path : String
  query : String
  fragment : String
deriving Repr, DecidableEq

/-- Characters allowed in a URL scheme. -/
def isSchemeChar (c : Char) : Bool :=
  c.isAlphanum ∨ c = '+' ∨ c = '-' ∨ c = '.'

/-- Python `urllib.parse.urlsplit` (modern CPython: strip leading
C0-control/space, remove tab/CR/LF, lowercase a valid scheme, netloc after
`//` up to `/?#`, fragment split before query split).  IPv6 bracket
validation and the NFKC netloc check are omitted — the plugin never
triggers them. -/
def urlsplitL (input : List Char) : SplitResult :=
  let cs0 := input.filter (fun c => ¬(c = '\t' ∨ c = '\r' ∨ c = '\n'))
  let cs := cs0.dropWhile (fun c => c.toNat ≤ 32)
  let pre := cs.takeWhile (· ≠ ':')
  let schemeOk : Bool := decide (pre.length < cs.length) && !pre.isEmpty &&
    (match pre with | c :: _ => c.isAlpha | [] => false) && pre.all isSchemeChar
  let scheme : List Char := if schemeOk then lowerL pre else []
  let rest := if schemeOk then cs.drop (pre.length + 1) else cs
  let hasNetloc := ['/', '/'].isPrefixOf rest
  let netloc := if hasNetloc then (rest.drop 2).takeWhile (fun c => ¬(c = '/' ∨ c = '?' ∨ c = '#')) else []
  let rest2 := if hasNetloc then (rest.drop 2).dropWhile (fun c => ¬(c = '/' ∨ c = '?' ∨ c = '#')) else rest
  let (beforeFrag, fragment) :=
    match partitionChar '#' rest2 with
    | (b, some f) => (b, f)
    | (b, none) => (b, [])
  let (path, query) :=
    match partitionChar '?' beforeFrag with
    | (p, some q) => (p, q)
    | (p, none) => (p, [])
  ⟨⟨scheme⟩, ⟨netloc⟩, ⟨path⟩, ⟨query⟩, ⟨fragment⟩⟩

def urlsplitS (s : String) : SplitResult := urlsplitL s.data

/-- Python `urllib.parse.urlunsplit`. -/
def urlunsplit (r : SplitResult) : String :=
  let url := r.path
  let url :=
    if r.netloc ≠ "" ∨ (url ≠ "" ∧ url.data.take 2 = ['/', '/']) then
      "//" ++ r.netloc ++ (if url ≠ "" ∧ url.data.take 1 ≠ ['/'] then "/" ++ url else url)
    else url
  let url := if r.scheme ≠ "" then r.scheme ++ ":" ++ url else url
  let url := if r.query ≠ "" then url ++ "?" ++ r.query else url
  if r.fragment ≠ "" then url ++ "#" ++ r.fragment else url

/-- Hostname and raw port of a netloc, per CPython `_hostinfo`: take the
part after the last `@`; inside `[...]` the bracketed host, port after
`]:`; otherwise split at the first `:`.  An empty port string counts as no
port. -/
def hostPortOf (netloc : List Char) : List Char × Option (List Char) :=
  let hi := afterLastAt netloc
  let raw :=
    match partitionChar '[' hi with
    | (_, some bracketed) =>
      let hostAfter := partitionChar ']' bracketed
      let port :=
        match hostAfter.2 with
        | none => none
        | some a => (partitionChar ':' a).2
      (hostAfter.1, port)
    | (_, none) => partitionChar ':' hi
  (raw.1, match raw.2 with | some [] => none | x => x)

/-! ## Python exceptions (as relevant to the plugin) -/

/-- The exception classes distinguished by `query`'s handlers:
`requests.exceptions.Timeout`, other `requests.exceptions.RequestException`
(carrying its class name), `json.JSONDecodeError`, `ValueError` (each
carrying `str(e)`), and everything else (`TypeError`, `AttributeError`,
…) that only the generic `except Exception` sees. -/
inductive PyExc
  | timeout
  | netError (ename : String)
  | jsonDecode (msg : String)
  | valueError (msg : String)
  | generic
deriving Repr, DecidableEq

/-- CPython's port property: `int(port, 10)` then range check 0–65535,
raising `ValueError` otherwise. -/
def portVal (p : List Char) : Except PyExc Nat :=
  match pyIntOfString ⟨p⟩ with
  | some n =>
    if 0 ≤ n ∧ n ≤ 65535 then .ok n.toNat
    else .error (.valueError "Port out of range 0-65535")
  | none => .error (.valueError "Port could not be cast to integer value")

/-! ## JSON values and Python truthiness -/

/-- JSON values as decoded by `response.json()` (floats are not modelled:
the plugin's claims never involve them). -/
inductive JValue
  | null
  | bool (b : Bool)
  | int (n : Int)
  | str (s : String)
  | arr (elems : List JValue)
  | obj (fields : List (String × JValue))

/-- Python truthiness of a decoded JSON value. -/
def JValue.truthy : JValue → Bool
  | .null => false
  | .bool b => b
  | .int n => n ≠ 0
  | .str s => s ≠ ""
  | .arr l => ¬l.isEmpty
  | .obj l => ¬l.isEmpty

/-- Dictionary lookup, `d.get(k)` (JSON objects decode to dicts with
unique keys; the model uses first-match lookup). -/
def getJ (k : String) : List (String × JValue) → Option JValue
  | [] => none
  | kv :: rest => if kv.1 = k then some kv.2 else getJ k rest

/-- Result of Python `int(x)` on a decoded JSON value: `ValueError` for an
unparsable string, `TypeError` for null/arrays/objects. -/
inductive PyIntRes
  | ok (n : Int)
  | valErr (msg : String)
  | typeErr

def pyIntJ : JValue → PyIntRes
  | .int n => .ok n
  | .bool b => .ok (if b then 1 else 0)
  | .str s =>
    match pyIntOfString s with
    | some n => .ok n
    | none => .valErr ("invalid literal for int() with base 10: '" ++ s ++ "'")
  | _ => .typeErr

/-! ## Settings (`_get_settings_from_file`) -/

/-- The recognized settings keys with their effective values.  The merge
guarantees `request_timeout` is an `Int` and `url_encode_query` a `Bool`
(matching the Python invariant after `_get_settings_from_file`). -/
structure Settings where
  server_address : String
  server_port : String
  server_path : String
  query_param_name : String
  url_encode_query : Bool
  request_timeout : Int
  custom_url_template : String
deriving Repr, DecidableEq

/-- The hard-coded `default_settings_map`. -/
def defaultSettings : Settings :=
  { server_address := "http://127.0.0.1"
    server_port := "8080"
    server_path := "/"
    query_param_name := "q"
    url_encode_query := true
    request_timeout := 5
    custom_url_template := "" }

/-- YAML scalars/collections as loaded by `yaml.safe_load` (floats not
modelled; the plugin's claims never involve them). -/
inductive YValue
  | null
  | bool (b : Bool)
  | int (n : Int)
  | str (s : String)
  | list (elems : List YValue)
  | map (entries : List (String × YValue))

def yLookup (k : String) : List (String × YValue) → Option YValue
  | [] => none
  | kv :: rest => if kv.1 = k then some kv.2 else yLookup k rest

/-- Python `int(y)` on a YAML value. -/
def pyIntY : YValue → PyIntRes
  | .int n => .ok n
  | .bool b => .ok (if b then 1 else 0)
  | .str s =>
    match pyIntOfString s with
    | some n => .ok n
    | none => .valErr ("invalid literal for int() with base 10: '" ++ s ++ "'")
  | _ => .typeErr

/-- Merge handler for a string-typed key: keep a YAML string, otherwise
the default (`isinstance(yaml_value, str)` check). -/
def strField (dflt : String) : Option YValue → String
  | some (.str s) => s
  | some _ => dflt
  | none => dflt

/-- Merge handler for `url_encode_query`: booleans kept; the strings
`true`/`false` (case-insensitive) converted; anything else defaults to
`True`. -/
def ueqField : Option YValue → Bool
  | some (.bool b) => b
  | some (.str s) =>
    if lowerS s = "true" then true
    else if lowerS s = "false" then false
    else true
  | some _ => true
  | none => true

/-- Merge handler for `request_timeout`: `int(value)`; non-positive or
`ValueError` falls back to 5; a `TypeError` (e.g. null or a list) escapes
the per-key `except ValueError`, aborting the merge loop (second
component `true`) with the key still at its default 5. -/
def rtField : Option YValue → Int × Bool
  | none => (5, false)
  | some y =>
    match pyIntY y with
    | .ok n => (if n ≤ 0 then 5 else n, false)
    | .valErr _ => (5, false)
    | .typeErr => (5, true)

/-- The settings merge of `_get_settings_from_file` over a parsed YAML
dictionary.  Keys are processed in `default_settings_map` insertion order;
only the `request_timeout` handler can raise a non-`ValueError`, which the
enclosing `except Exception` turns into "stop merging" — the later key
`custom_url_template` then stays at its default.  A missing file,
non-dictionary YAML or parse error corresponds to `mergeSettings []`. -/
def mergeSettings (m : List (String × YValue)) : Settings :=
  let rt := rtField (yLookup "request_timeout" m)
  { server_address := strField "http://127.0.0.1" (yLookup "server_address" m)
    server_port := strField "8080" (yLookup "server_port" m)
    server_path := strField "/" (yLookup "server_path" m)
    query_param_name := strField "q" (yLookup "query_param_name" m)
    url_encode_query := ueqField (yLookup "url_encode_query" m)
    request_timeout := rt.1
    custom_url_template := if rt.2 then "" else strField "" (yLookup "custom_url_template" m) }

/-- The re-coercion of the timeout inside `query` (lines 331–339): the
merged value is already an `Int`, so only the positivity guard remains. -/
def queryTimeout (st : Settings) : Int :=
  if st.request_timeout ≤ 0 then 5 else st.request_timeout

/-! ## URL construction (`query`, lines 317–397) -/

/-- `server_path` normalization (lines 319–321). -/
def serverPathOf (st : Settings) : String :=
  let raw := st.server_path
  let p := if ¬['/'].isPrefixOf raw.data then "/" ++ raw else raw
  if p = "//" then "/" else p

/-- Placeholder substitution on the custom template, in source order. -/
def substAll (tmpl name param : String) : String :=
  replaceS (replaceS (replaceS tmpl "{encoded_query}" (quote_plus param)) "{query}" param)
    "{query_param_name}" name

/-- Prefix `http://` when the string parses with no scheme. -/
def withHttpScheme (u : String) : String :=
  if (urlsplitS u).scheme = "" then "http://" ++ u else u

/-- Custom-template URL construction (lines 349–376), returning the
components handed to `urlunsplit`: substitute placeholders, default the
scheme, and — when the original template contains neither `{query}` nor
`{encoded_query}` — append the query under the configured key, merged with
the template's existing query string via `parse_qsl`/`urlencode`. -/
def customUrlParts (tmpl name : String) (enc : Bool) (param : String) : SplitResult :=
  let parsed := urlsplitS (withHttpScheme (substAll tmpl name param))
  if ¬hasSubstr "{encoded_query}" tmpl ∧ ¬hasSubstr "{query}" tmpl then
    let qts := if enc then quote_plus param else param
    { parsed with query := urlencode (parse_qsl parsed.query ++ [(name, qts)]) }
  else parsed

/-- The effective address (line 383–385): prefix `http://` when the
configured address has no scheme and is non-empty. -/
def legacyEffAddr (st : Settings) : String :=
  if (urlsplitS st.server_address).scheme = "" ∧ st.server_address ≠ "" then
    "http://" ++ st.server_address
  else st.server_address

/-- Scheme of the constructed URL (line 388): parsed scheme or `http`. -/
def legacyScheme (st : Settings) : String :=
  if (urlsplitS (legacyEffAddr st)).scheme = "" then "http"
  else (urlsplitS (legacyEffAddr st)).scheme

/-- Hostname/port split of the parsed address's netloc. -/
def legacyHostPort (st : Settings) : List Char × Option (List Char) :=
  hostPortOf (urlsplitS (legacyEffAddr st)).netloc.data

/-- The final netloc (line 392): an embedded non-zero port wins, else the
configured `server_port` when non-empty, else the bare host. -/
def legacyNetloc (st : Settings) (host : String) (port : Nat) : String :=
  if port ≠ 0 then host ++ ":" ++ toString port
  else if st.server_port ≠ "" then host ++ ":" ++ st.server_port
  else host

/-- The query string of the constructed URL (lines 393–394). -/
def legacyQuery (st : Settings) (param : String) : String :=
  st.query_param_name ++ "=" ++ (if st.url_encode_query then quote_plus param else param)

/-- The lowercased hostname (`parsed_addr.hostname`, line 389). -/
def legacyHost (st : Settings) : String := ⟨lowerL (legacyHostPort st).1⟩

/-- Continuation of the legacy construction once the hostname check has
passed: parse the embedded port (if any) and assemble the components. -/
def legacyWithPort (st : Settings) (param : String) : Option (List Char) → Except PyExc SplitResult
  | none =>
    .ok ⟨legacyScheme st, legacyNetloc st (legacyHost st) 0, serverPathOf st,
      legacyQuery st param, ""⟩
  | some p =>
    match portVal p with
    | .error e => .error e
    | .ok port =>
      .ok ⟨legacyScheme st, legacyNetloc st (legacyHost st) port, serverPathOf st,
        legacyQuery st param, ""⟩

/-- Legacy URL construction from address/port/path (lines 382–395),
returning the components handed to `urlunsplit`.  Raises `ValueError` when
the address yields no hostname or an unparsable embedded port. -/
def buildLegacyParts (st : Settings) (param : String) : Except PyExc SplitResult :=
  if legacyHost st = "" then
    .error (.valueError ("Invalid server_address '" ++ st.server_address ++ "': no hostname."))
  else
    legacyWithPort st param (legacyHostPort st).2

/-- URL construction for one invocation of `query`: the custom-template
branch when the stripped template is non-empty, the legacy branch
otherwise. -/
def buildUrl (st : Settings) (param : String) : Except PyExc String :=
  let tmpl := pstrip st.custom_url_template
  if tmpl = "" then (buildLegacyParts st param).map urlunsplit
  else .ok (urlunsplit (customUrlParts tmpl st.query_param_name st.url_encode_query param))

/-! ## Result entries and response mapping (`query`, lines 399–451) -/

/-- One result dictionary.  Optional fields model key presence: error and
fallback entries carry no `Score`; the context-menu placeholder carries no
`SubTitle`. -/
structure RpcAction where
  method : String
  parameters : List JValue

structure Entry where
  title : JValue
  subTitle : Option JValue
  icoPath : String
  score : Option Int
  autoCompleteText : Option JValue
  contextData : Option JValue
  jsonRPCAction : Option RpcAction

/-- The ambient pieces of handler state `query`/`context_menu` read:
`_resolve_icon_path_static` on string arguments (filesystem dependent,
hence abstract), the resolved plugin default icon, and
`hasattr(self, m) and callable(getattr(self, m))` for method names. -/
structure Env where
  resolve : String → String
  defaultIcon : String
  hasMethod : String → Bool

/-- `_resolve_icon_path_static(item.get("IcoPath"), ...)`: a falsy argument
yields `""`; a truthy string is resolved; a truthy non-string hits
`.replace` and raises `AttributeError` (modelled `generic`). -/
def resolveIconJ (env : Env) : Option JValue → Except PyExc String
  | none => .ok ""
  | some v =>
    if v.truthy then
      match v with
      | .str s => .ok (env.resolve s)
      | _ => .error .generic
    else .ok ""

/-- `int(item_data.get("Score", 0))` as an exception-typed computation. -/
def scoreOf (fields : List (String × JValue)) : Except PyExc Int :=
  match pyIntJ ((getJ "Score" fields).getD (.int 0)) with
  | .ok n => .ok n
  | .valErr msg => .error (.valueError msg)
  | .typeErr => .error .generic

/-- `parameters` normalization: a list is kept, `None` and a missing key
become `[]`, any other value is wrapped in a singleton list. -/
def paramsOf (d : List (String × JValue)) : List JValue :=
  match getJ "parameters" d with
  | some (.arr l) => l
  | some .null => []
  | some v => [v]
  | none => []

/-- `JsonRPCAction` handling (lines 422–427): only a dict descriptor with a
truthy method naming an existing callable is copied; a falsy or unknown
method drops the descriptor; a truthy non-string method makes
`hasattr(self, method)` raise `TypeError` (modelled `generic`). -/
def rpcOf (env : Env) (fields : List (String × JValue)) : Except PyExc (Option RpcAction) :=
  match getJ "JsonRPCAction" fields with
  | some (.obj d) =>
    match getJ "method" d with
    | some m =>
      if m.truthy then
        match m with
        | .str s => if env.hasMethod s then .ok (some ⟨s, paramsOf d⟩) else .ok none
        | _ => .error .generic
      else .ok none
    | none => .ok none
  | _ => .ok none

/-- The context payload attached to an entry (lines 417–420): the wrapper
dict when `ContextMenuItems` is a truthy list, else the raw `ContextData`
when it is not `None` (JSON `null` decodes to `None`). -/
def ctxOf (fields : List (String × JValue)) : Option JValue :=
  let baseN : Option JValue :=
    match getJ "ContextData" fields with
    | some .null => none
    | none => none
    | some v => some v
  match getJ "ContextMenuItems" fields with
  | some v =>
    if v.truthy then
      match v with
      | .arr l =>
        some (.obj [("original_data", (getJ "ContextData" fields).getD .null),
                    ("defined_menu_items", .arr l)])
      | _ => baseN
    else baseN
  | none => baseN

/-- Element retention: kept iff the element is an object with a truthy
`Title` (line 407). -/
def keep : JValue → Bool
  | .obj f => ((getJ "Title" f).getD .null).truthy
  | _ => false

/-- Mapping of one retained element into a result entry, with the source's
exception order: icon resolution, then score coercion, then the callback
descriptor. -/
def mapItem (env : Env) (item : JValue) : Except PyExc (Option Entry) :=
  match item with
  | .obj f =>
    match getJ "Title" f with
    | some t =>
      if t.truthy then
        match resolveIconJ env (getJ "IcoPath" f) with
        | .error e => .error e
        | .ok icon =>
          match scoreOf f with
          | .error e => .error e
          | .ok score =>
            match rpcOf env f with
            | .error e => .error e
            | .ok act =>
              .ok (some
                { title := t
                  subTitle := some ((getJ "SubTitle" f).getD (.str ""))
                  icoPath := if icon = "" then env.defaultIcon else icon
                  score := some score
                  autoCompleteText :=
                    match getJ "AutoCompleteText" f with
                    | some v => if v.truthy then some v else none
                    | none => none
                  contextData := ctxOf f
                  jsonRPCAction := act })
      else .ok none
    | none => .ok none
  | _ => .ok none

/-- The `for item_data in server_response_data` loop: an exception aborts
the whole loop (the handler then replaces the entry list). -/
def mapLoop (env : Env) : List JValue → Except PyExc (List Entry)
  | [] => .ok []
  | item :: rest =>
    match mapItem env item with
    | .error e => .error e
    | .ok none => mapLoop env rest
    | .ok (some e) =>
      match mapLoop env rest with
      | .error err => .error err
      | .ok l => .ok (e :: l)

/-- Transport outcome of the single `requests.get`: timeout, another
request exception (with its class name), or an HTTP-success body whose
JSON parse either fails (with the decoder message) or yields a value. -/
inductive Transport
  | timeout
  | netError (ename : String)
  | resp (body : Except String JValue)

/-- The synthetic single entry each `except` handler produces
(lines 430–442). -/
def errEntry (icon url : String) : PyExc → Entry
  | .timeout =>
    ⟨.str "Error: Request Timed Out",
      some (.str ("Server at " ++ url ++ " timed out.")), icon, none, none, none, none⟩
  | .netError ename =>
    ⟨.str "Error: Network Request Failed",
      some (.str ("Could not connect to '" ++ url ++ "'. " ++ ename)), icon, none, none, none, none⟩
  | .jsonDecode msg =>
    ⟨.str "Error: JSONDecodeError", some (.str msg), icon, none, none, none, none⟩
  | .valueError msg =>
    ⟨.str "Error: ValueError", some (.str msg), icon, none, none, none, none⟩
  | .generic =>
    ⟨.str "Error: Plugin Error", some (.str "Unexpected. Check logs."), icon, none, none, none, none⟩

/-- The entry list before the no-results/ready fallback (the local
`results` after the `try`/`except`, line 443). -/
def queryRaw (env : Env) (st : Settings) (param : String) (t : Transport) : List Entry :=
  match buildUrl st param with
  | .error e => [errEntry env.defaultIcon "URL not constructed" e]
  | .ok url =>
    match t with
    | .timeout => [errEntry env.defaultIcon url .timeout]
    | .netError n => [errEntry env.defaultIcon url (.netError n)]
    | .resp (.error msg) => [errEntry env.defaultIcon url (.jsonDecode msg)]
    | .resp (.ok v) =>
      match v with
      | .arr items =>
        match mapLoop env items with
        | .ok rs => rs
        | .error e => [errEntry env.defaultIcon url e]
      | _ =>
        [errEntry env.defaultIcon url
          (.valueError ("Server response from " ++ url ++ " is not a JSON list."))]

/-- The "no results" fallback entry (line 445). -/
def noResultsEntry (env : Env) (param : String) : Entry :=
  ⟨.str "No results", some (.str ("Query '" ++ param ++ "' from server.")),
    env.defaultIcon, none, none, none, none⟩

/-- The ready/idle fallback entry (lines 447–448). -/
def readyEntry (env : Env) : Entry :=
  ⟨.str "HTTP Query Forwarder Ready",
    some (.str "Enter query. Config: ...\\Documents\\httpflow\\settings.yaml"),
    env.defaultIcon, none, none, none, none⟩

/-- The full `query` invocation: settings-derived URL, transport outcome,
response mapping, error-to-result mapping and the empty-result fallbacks.
Totality of this function is the model of "never raises outward": every
arm of the exception taxonomy is consumed by a handler. -/
def queryResults (env : Env) (st : Settings) (param : String) (t : Transport) : List Entry :=
  let rs := queryRaw env st param t
  if rs.isEmpty then
    if pstrip param ≠ "" then [noResultsEntry env param] else [readyEntry env]
  else rs

/-! ## Context menu (`context_menu`, lines 453–484) -/

/-- Mapping of one menu item definition: same title/subtitle/icon/callback
rules as `mapItem`, without score, autocomplete or context data. -/
def ctxItem (env : Env) (item : JValue) : Except PyExc (Option Entry) :=
  match item with
  | .obj f =>
    match getJ "Title" f with
    | some t =>
      if t.truthy then
        match resolveIconJ env (getJ "IcoPath" f) with
        | .error e => .error e
        | .ok icon =>
          match rpcOf env f with
          | .error e => .error e
          | .ok act =>
            .ok (some
              { title := t
                subTitle := some ((getJ "SubTitle" f).getD (.str ""))
                icoPath := if icon = "" then env.defaultIcon else icon
                score := none
                autoCompleteText := none
                contextData := none
                jsonRPCAction := act })
      else .ok none
    | none => .ok none
  | _ => .ok none

def ctxLoop (env : Env) : List JValue → Except PyExc (List Entry)
  | [] => .ok []
  | item :: rest =>
    match ctxItem env item with
    | .error e => .error e
    | .ok none => ctxLoop env rest
    | .ok (some e) =>
      match ctxLoop env rest with
      | .error err => .error err
      | .ok l => .ok (e :: l)

/-- Whether the payload is a dict carrying the `original_data` key
(`isinstance(data, dict) and "original_data" in data`). -/
def hasOrigKey : JValue → Bool
  | .obj f => (getJ "original_data" f).isSome
  | _ => false

def ctxPlaceholder (env : Env) (data : JValue) : Entry :=
  let ttl :=
    if hasOrigKey data then "No specific context actions (original data present)"
    else "No context actions defined by server"
  ⟨.str ttl, none, env.defaultIcon, none, none, none, none⟩

/-- `context_menu(data)`.  Unlike `query` it has no `try`, so an exception
in mapping escapes (the `Except.error` result).  Iterating a string or a
dict yields only non-dict elements (all skipped, modelled `[]`); iterating
null/bool/int raises `TypeError`.  When no menu entries result, one
placeholder entry is produced, its text depending on whether the payload
is a dict containing the `original_data` key. -/
def contextMenu (env : Env) (data : JValue) : Except PyExc (List Entry) :=
  let menuE : Except PyExc (List Entry) :=
    match data with
    | .obj f =>
      match getJ "defined_menu_items" f with
      | some (.arr l) => ctxLoop env l
      | some (.str _) => .ok []
      | some (.obj _) => .ok []
      | some _ => .error .generic
      | none => .ok []
    | _ => .ok []
  match menuE with
  | .error e => .error e
  | .ok menu => if menu.isEmpty then .ok [ctxPlaceholder env data] else .ok menu

/-! ## Specification-side descriptions used in theorem statements

The following definitions restate, in direct functional form, what the
spec's sentences predict for benign inputs; the theorems compare them with
the source-derived functions above. -/

/-- `quotePlusChar` after `unquote_plus`'s `+`-to-space pass: a space or
safe character stands for itself, anything else is its percent-escaped
UTF-8 byte run. -/
def qpAfter (c : Char) : List Char :=
  if c = ' ' ∨ isQuoteSafe c then [c] else (utf8EncodeChar c).flatMap pencByte

/-- Icon value of a mapped element on benign input. -/
def iconT (env : Env) (f : List (String × JValue)) : String :=
  match getJ "IcoPath" f with
  | some (.str s) => if s ≠ "" then env.resolve s else ""
  | _ => ""

/-- Score of a mapped element on benign input (0 when absent). -/
def scoreT (f : List (String × JValue)) : Int :=
  match pyIntJ ((getJ "Score" f).getD (.int 0)) with
  | .ok n => n
  | _ => 0

/-- Callback descriptor of a mapped element on benign input. -/
def rpcT (env : Env) (f : List (String × JValue)) : Option RpcAction :=
  match getJ "JsonRPCAction" f with
  | some (.obj d) =>
    match getJ "method" d with
    | some (.str s) => if s ≠ "" ∧ env.hasMethod s then some ⟨s, paramsOf d⟩ else none
    | _ => none
  | _ => none

/-- The result entry the spec predicts for a retained, benign element. -/
def entryT (env : Env) : JValue → Entry
  | .obj f =>
    { title := (getJ "Title" f).getD .null
      subTitle := some ((getJ "SubTitle" f).getD (.str ""))
      icoPath := if iconT env f = "" then env.defaultIcon else iconT env f
      score := some (scoreT f)
      autoCompleteText :=
        match getJ "AutoCompleteText" f with
        | some v => if v.truthy then some v else none
        | none => none
      contextData := ctxOf f
      jsonRPCAction := rpcT env f }
  | _ => ⟨.null, none, "", none, none, none, none⟩

/-- The context-menu view of an entry: same fields minus score,
autocomplete and context data. -/
def dropExtras (e : Entry) : Entry :=
  { e with score := none, autoCompleteText := none, contextData := none }

/-- Benignity of an element's `IcoPath`: absent, falsy, or a string
(anything else raises `AttributeError` in icon resolution). -/
def iconOkB (f : List (String × JValue)) : Bool :=
  match getJ "IcoPath" f with
  | some v => !v.truthy || (match v with | .str _ => true | _ => false)
  | none => true

/-- Benignity of an element's `Score`: `int()` succeeds. -/
def scoreOkB (f : List (String × JValue)) : Bool :=
  match pyIntJ ((getJ "Score" f).getD (.int 0)) with
  | .ok _ => true
  | _ => false

/-- Benignity of an element's callback descriptor: its method, when truthy,
is a string (anything else makes `hasattr` raise `TypeError`). -/
def rpcOkB (f : List (String × JValue)) : Bool :=
  match getJ "JsonRPCAction" f with
  | some (.obj d) =>
    (match getJ "method" d with
     | some m => !m.truthy || (match m with | .str _ => true | _ => false)
     | none => true)
  | _ => true

/-- A benign element: mapping it cannot raise. -/
def itemOk : JValue → Bool
  | .obj f => iconOkB f && scoreOkB f && rpcOkB f
  | _ => true

/-- Benignity of the retained elements of a response array (skipped
elements are never evaluated, so they need not be benign). -/
abbrev itemsOk (items : List JValue) : Prop :=
  ∀ item ∈ items, keep item = false ∨ itemOk item = true

/-- An element's callback-icon benignity for context items (no score). -/
def ctxItemOk : JValue → Bool
  | .obj f => iconOkB f && rpcOkB f
  | _ => true

abbrev ctxItemsOk (items : List JValue) : Prop :=
  ∀ item ∈ items, keep item = false ∨ ctxItemOk item = true

/-- Removal of a dictionary key (the spec's "the descriptor alone is
dropped, the rest of the entry is kept"). -/
def removeKey (k : String) (l : List (String × JValue)) : List (String × JValue) :=
  l.filter (fun kv => kv.1 ≠ k)

/-- A rejected callback descriptor: present, but with no method, a falsy
method, or an unknown string method. -/
def rpcRejected (env : Env) (f : List (String × JValue)) : Prop :=
  match getJ "JsonRPCAction" f with
  | some (.obj d) =>
    match getJ "method" d with
    | some m => m.truthy = false ∨ (∃ s, m = .str s ∧ env.hasMethod s = false)
    | none => True
  | some _ => True
  | none => False

/-- A settings value the spec calls absent, malformed or of the wrong type,
per key.  For the string-typed keys: anything but a YAML string. -/
def strBadB : Option YValue → Bool
  | some (.str _) => false
  | _ => true

/-- For `url_encode_query`: anything but a boolean or a case-insensitive
`true`/`false` string. -/
def ueqBadB : Option YValue → Bool
  | some (.bool _) => false
  | some (.str s) => !(lowerS s = "true" || lowerS s = "false")
  | some _ => true
  | none => true

/-- For `request_timeout`: absent, not `int()`-convertible, or
non-positive. -/
def rtBadB : Option YValue → Bool
  | none => true
  | some y =>
    match pyIntY y with
    | .ok n => n ≤ 0
    | _ => true

/-- A context payload on which the menu loop yields no entries without
raising: not a dict, no `defined_menu_items` key, or a string/dict value
(whose iteration yields only non-dict elements).  A truthy non-list such
as an int or null would raise `TypeError` instead, and a non-empty list is
the mapped case. -/
def emptyMenuData : JValue → Prop
  | .obj f =>
    match getJ "defined_menu_items" f with
    | none => True
    | some (.str _) => True
    | some (.obj _) => True
    | some (.arr l) => l = []
    | some _ => False
  | _ => True

/-- A fixed environment for concrete instances: icons resolve to nothing,
the default icon is `"ICON"`, no callable methods. -/
def env0 : Env := ⟨fun _ => "", "ICON", fun _ => false⟩

/-- As `env0` but every method name exists and is callable. -/
def env1 : Env := ⟨fun _ => "", "ICON", fun _ => true⟩

/-! ## Lemmas: percent-encoding round trip -/

theorem char_toNat_lt (c : Char) : c.toNat < 1114112 := by
  rcases c.valid with h | h
  · exact Nat.lt_trans h (by norm_num)
  · exact h.2

theorem hexVal_hexDigit : ∀ n, n < 16 → hexVal (hexDigit n) = some n := by decide

theorem utf8EncodeChar_lt (c : Char) : ∀ b ∈ utf8EncodeChar c, b < 256 := by
  intro b hb
  have hc := char_toNat_lt c
  simp only [utf8EncodeChar] at hb
  split at hb
  · simp only [List.mem_singleton] at hb; omega
  · split at hb
    · simp only [List.mem_cons, List.not_mem_nil, or_false] at hb
      rcases hb with hb | hb <;> omega
    · split at hb
      · simp only [List.mem_cons, List.not_mem_nil, or_false] at hb
        rcases hb with hb | hb | hb <;> omega
      · simp only [List.mem_cons, List.not_mem_nil, or_false] at hb
        rcases hb with hb | hb | hb | hb <;> omega

theorem utf8Decode_one (b : Nat) (bs : List Nat) (h : b < 128) :
    utf8Decode (b :: bs) = Char.ofNat b :: utf8Decode bs := by
  rw [utf8Decode, if_pos h]

theorem utf8Decode_two (b b1 : Nat) (bs : List Nat) (hlo : 192 ≤ b) (hhi : b < 224) :
    utf8Decode (b :: b1 :: bs) =
      Char.ofNat ((b - 192) * 64 + b1 % 64) :: utf8Decode bs := by
  rw [utf8Decode, if_neg (by omega), if_neg (by omega), if_pos hhi, utf8Dec2]

theorem utf8Decode_three (b b1 b2 : Nat) (bs : List Nat) (hlo : 224 ≤ b) (hhi : b < 240) :
    utf8Decode (b :: b1 :: b2 :: bs) =
      Char.ofNat ((b - 224) * 4096 + b1 % 64 * 64 + b2 % 64) :: utf8Decode bs := by
  rw [utf8Decode, if_neg (by omega), if_neg (by omega), if_neg (by omega), if_pos hhi, utf8Dec3]

theorem utf8Decode_four (b b1 b2 b3 : Nat) (bs : List Nat) (hlo : 240 ≤ b) :
    utf8Decode (b :: b1 :: b2 :: b3 :: bs) =
      Char.ofNat ((b - 240) * 262144 + b1 % 64 * 4096 + b2 % 64 * 64 + b3 % 64) ::
        utf8Decode bs := by
  rw [utf8Decode, if_neg (by omega), if_neg (by omega), if_neg (by omega), if_neg (by omega),
    utf8Dec4]

theorem utf8Decode_encodeChar (c : Char) (bs : List Nat) :
    utf8Decode (utf8EncodeChar c ++ bs) = c :: utf8Decode bs := by
  rcases Nat.lt_or_ge c.toNat 128 with h1 | h1
  · rw [utf8EncodeChar, if_pos h1, List.cons_append, List.nil_append,
      utf8Decode_one _ _ h1, Char.ofNat_toNat]
  · rcases Nat.lt_or_ge c.toNat 2048 with h2 | h2
    · rw [utf8EncodeChar, if_neg (by omega), if_pos h2, List.cons_append, List.cons_append,
        List.nil_append, utf8Decode_two _ _ _ (by omega) (by omega),
        show (192 + c.toNat / 64 - 192) * 64 + (128 + c.toNat % 64) % 64 = c.toNat by omega,
        Char.ofNat_toNat]
    · rcases Nat.lt_or_ge c.toNat 65536 with h3 | h3
      · rw [utf8EncodeChar, if_neg (by omega), if_neg (by omega), if_pos h3, List.cons_append,
          List.cons_append, List.cons_append, List.nil_append,
          utf8Decode_three _ _ _ _ (by omega) (by omega),
          show (224 + c.toNat / 4096 - 224) * 4096 + (128 + c.toNat / 64 % 64) % 64 * 64 +
            (128 + c.toNat % 64) % 64 = c.toNat by omega, Char.ofNat_toNat]
      · rw [utf8EncodeChar, if_neg (by omega), if_neg (by omega), if_neg (by omega),
          List.cons_append, List.cons_append, List.cons_append, List.cons_append,
          List.nil_append, utf8Decode_four _ _ _ _ _ (by omega),
          show (240 + c.toNat / 262144 - 240) * 262144 + (128 + c.toNat / 4096 % 64) % 64 * 4096 +
            (128 + c.toNat / 64 % 64) % 64 * 64 + (128 + c.toNat % 64) % 64 = c.toNat by omega,
          Char.ofNat_toNat]

theorem utf8Decode_flat (p : List Char) : utf8Decode (p.flatMap utf8EncodeChar) = p := by
  induction p with
  | nil => rfl
  | cons c t ih => rw [List.flatMap_cons, utf8Decode_encodeChar, ih]

theorem unquoteAux_nil (acc : List Nat) : unquoteAux acc [] = utf8Decode acc := by
  simp [unquoteAux]

theorem unquoteAux_esc (acc : List Nat) (c1 c2 : Char) (hi lo : Nat) (r : List Char)
    (h1 : hexVal c1 = some hi) (h2 : hexVal c2 = some lo) :
    unquoteAux acc ('%' :: c1 :: c2 :: r) = unquoteAux (acc ++ [16 * hi + lo]) r := by
  rw [unquoteAux, h1, h2]

theorem unquoteAux_cons_ne (c : Char) (hne : c ≠ '%') (acc : List Nat) (rest : List Char) :
    unquoteAux acc (c :: rest) = utf8Decode acc ++ c :: unquoteAux [] rest := by
  rw [unquoteAux.eq_def]
  split
  · rename_i heqq; cases heqq
  · rename_i heqq; injection heqq with hh _; exact absurd hh hne
  · rename_i heqq; injection heqq with hh ht; rw [hh, ht]

theorem unquoteAux_penc (bs : List Nat) (hb : ∀ b ∈ bs, b < 256) (acc : List Nat)
    (cs : List Char) :
    unquoteAux acc (bs.flatMap pencByte ++ cs) = unquoteAux (acc ++ bs) cs := by
  induction bs generalizing acc with
  | nil => simp
  | cons b t ih =>
    have hb0 : b < 256 := hb b (List.mem_cons_self _ _)
    have h1 : hexVal (hexDigit (b / 16)) = some (b / 16) := hexVal_hexDigit _ (by omega)
    have h2 : hexVal (hexDigit (b % 16)) = some (b % 16) := hexVal_hexDigit _ (by omega)
    have hb2 : ∀ x ∈ t, x < 256 := fun x hx => hb x (List.mem_cons_of_mem _ hx)
    rw [List.flatMap_cons]
    show unquoteAux acc
        ('%' :: hexDigit (b / 16) :: hexDigit (b % 16) :: (t.flatMap pencByte ++ cs)) = _
    rw [unquoteAux_esc _ _ _ _ _ _ h1 h2, show 16 * (b / 16) + b % 16 = b by omega, ih hb2]
    simp

theorem unquoteAux_qp (s : List Char) : ∀ p : List Char,
    unquoteAux (p.flatMap utf8EncodeChar) (s.flatMap qpAfter) = p ++ s := by
  induction s with
  | nil =>
    intro p
    simp only [List.flatMap_nil, unquoteAux_nil, utf8Decode_flat, List.append_nil]
  | cons c t ih =>
    intro p
    by_cases h : c = ' ' ∨ isQuoteSafe c
    · have hne : c ≠ '%' := by
        rcases h with h | h
        · rw [h]; decide
        · intro hEq; rw [hEq] at h; exact absurd h (by decide)
      rw [List.flatMap_cons, qpAfter, if_pos h, List.singleton_append,
        unquoteAux_cons_ne c hne, utf8Decode_flat]
      have := ih []
      simp only [List.flatMap_nil, List.nil_append] at this
      rw [this]
    · rw [List.flatMap_cons, qpAfter, if_neg h,
        unquoteAux_penc _ (utf8EncodeChar_lt c) _ _,
        show p.flatMap utf8EncodeChar ++ utf8EncodeChar c
            = (p ++ [c]).flatMap utf8EncodeChar by simp,
        ih (p ++ [c])]
      simp

theorem map_plusToSpace_penc (bs : List Nat) (hb : ∀ b ∈ bs, b < 256) :
    (bs.flatMap pencByte).map plusToSpace = bs.flatMap pencByte := by
  induction bs with
  | nil => rfl
  | cons b t ih =>
    have hb0 : b < 256 := hb b (List.mem_cons_self _ _)
    have hb2 : ∀ x ∈ t, x < 256 := fun x hx => hb x (List.mem_cons_of_mem _ hx)
    have hd : ∀ n, n < 16 → plusToSpace (hexDigit n) = hexDigit n := by decide
    rw [List.flatMap_cons, List.map_append, ih hb2]
    simp only [pencByte, List.map_cons, List.map_nil, hd (b / 16) (by omega),
      hd (b % 16) (by omega)]
    rfl

theorem map_plusToSpace_qpc (c : Char) :
    (quotePlusChar c).map plusToSpace = qpAfter c := by
  by_cases hs : c = ' '
  · rw [hs]; rfl
  · by_cases hq : isQuoteSafe c
    · have hplus : c ≠ '+' := by intro h; rw [h] at hq; exact absurd hq (by decide)
      simp [quotePlusChar, qpAfter, hs, hq, plusToSpace, hplus]
    · have h2 : ¬(c = ' ' ∨ isQuoteSafe c) := by simp [hs, hq]
      rw [quotePlusChar, if_neg hs, if_neg hq, qpAfter, if_neg h2,
        map_plusToSpace_penc _ (utf8EncodeChar_lt c)]

theorem unquote_plus_quote_plus (s : String) : unquote_plus (quote_plus s) = s := by
  have hmap : (s.data.flatMap quotePlusChar).map plusToSpace = s.data.flatMap qpAfter := by
    induction s.data with
    | nil => rfl
    | cons c t ih =>
      rw [List.flatMap_cons, List.map_append, map_plusToSpace_qpc, ih, List.flatMap_cons]
  have hq := unquoteAux_qp s.data []
  simp only [List.flatMap_nil, List.nil_append] at hq
  rw [unquote_plus, quote_plus, hmap, hq]

/-! ## Lemmas: `parse_qsl` / `urlencode` -/

theorem mkString_data (s : String) : String.mk s.data = s := by
  cases s; rfl

theorem quotePlusChar_chars (c : Char) :
    ∀ x ∈ quotePlusChar c, x ≠ '&' ∧ x ≠ '=' := by
  intro x hx
  rw [quotePlusChar] at hx
  split at hx
  · simp only [List.mem_singleton] at hx
    rw [hx]; exact ⟨by decide, by decide⟩
  · split at hx
    · rename_i hq
      simp only [List.mem_singleton] at hx
      subst hx
      constructor
      · intro hc; rw [hc] at hq; exact absurd hq (by decide)
      · intro hc; rw [hc] at hq; exact absurd hq (by decide)
    · rcases List.mem_flatMap.mp hx with ⟨b, hb, hxb⟩
      have hb256 : b < 256 := utf8EncodeChar_lt c b hb
      have hd : ∀ n, n < 16 → hexDigit n ≠ '&' ∧ hexDigit n ≠ '=' := by decide
      simp only [pencByte, List.mem_cons, List.not_mem_nil, or_false] at hxb
      rcases hxb with h | h | h
      · rw [h]; exact ⟨by decide, by decide⟩
      · rw [h]; exact hd (b / 16) (by omega)
      · rw [h]; exact hd (b % 16) (by omega)

theorem quote_plus_no_amp (s : String) : ∀ x ∈ (quote_plus s).data, x ≠ '&' := by
  intro x hx
  rw [quote_plus] at hx
  rcases List.mem_flatMap.mp hx with ⟨c, _, hxc⟩
  exact (quotePlusChar_chars c x hxc).1

theorem quote_plus_no_eq (s : String) : ∀ x ∈ (quote_plus s).data, x ≠ '=' := by
  intro x hx
  rw [quote_plus] at hx
  rcases List.mem_flatMap.mp hx with ⟨c, _, hxc⟩
  exact (quotePlusChar_chars c x hxc).2

theorem splitOnChar_of_no_sep (sep : Char) (cs : List Char) (h : ∀ c ∈ cs, c ≠ sep) :
    splitOnChar sep cs = [cs] := by
  induction cs with
  | nil => rfl
  | cons c t ih =>
    have hc : c ≠ sep := h c (List.mem_cons_self _ _)
    have ht := ih fun x hx => h x (List.mem_cons_of_mem _ hx)
    rw [splitOnChar, if_neg hc, ht]

theorem splitOnChar_sep_append (sep : Char) (p rest : List Char) (h : ∀ c ∈ p, c ≠ sep) :
    splitOnChar sep (p ++ sep :: rest) = p :: splitOnChar sep rest := by
  induction p with
  | nil => simp [splitOnChar]
  | cons c t ih =>
    have hc : c ≠ sep := h c (List.mem_cons_self _ _)
    have ht := ih fun x hx => h x (List.mem_cons_of_mem _ hx)
    rw [List.cons_append, splitOnChar, if_neg hc, ht]

theorem splitFirstEq_append (n v : List Char) (h : ∀ c ∈ n, c ≠ '=') :
    splitFirstEq (n ++ '=' :: v) = some (n, v) := by
  induction n with
  | nil => simp [splitFirstEq]
  | cons c t ih =>
    have hc : c ≠ '=' := h c (List.mem_cons_self _ _)
    have ht := ih fun x hx => h x (List.mem_cons_of_mem _ hx)
    rw [List.cons_append, splitFirstEq, if_neg hc, ht, Option.map_some']

theorem unquoteAux_plain (cs : List Char) (h : ∀ c ∈ cs, c ≠ '%') :
    unquoteAux [] cs = cs := by
  induction cs with
  | nil => rw [unquoteAux_nil]; rfl
  | cons c t ih =>
    have hc : c ≠ '%' := h c (List.mem_cons_self _ _)
    have ht := ih fun x hx => h x (List.mem_cons_of_mem _ hx)
    rw [unquoteAux_cons_ne c hc, ht]
    rfl

theorem plain_map_plusToSpace (cs : List Char) (h : ∀ c ∈ cs, isQuoteSafe c = true) :
    cs.map plusToSpace = cs := by
  induction cs with
  | nil => rfl
  | cons c t ih =>
    have hc := h c (List.mem_cons_self _ _)
    have hplus : c ≠ '+' := by
      intro hEq; rw [hEq] at hc; exact absurd hc (by decide)
    rw [List.map_cons, ih fun x hx => h x (List.mem_cons_of_mem _ hx)]
    simp [plusToSpace, hplus]

/-- Percent-decoding leaves a run of `quote_plus`-safe characters
(letters, digits, `_.-~`) untouched. -/
theorem plain_unquote (cs : List Char) (h : ∀ c ∈ cs, isQuoteSafe c = true) :
    unquoteAux [] (cs.map plusToSpace) = cs := by
  rw [plain_map_plusToSpace cs h]
  apply unquoteAux_plain
  intro c hc hEq
  have := h c hc
  rw [hEq] at this
  exact absurd this (by decide)

/-- `unquote_plus_quote_plus` stated on the raw character list. -/
theorem unq_qp (s : String) :
    String.mk (unquoteAux [] ((quote_plus s).data.map plusToSpace)) = s :=
  unquote_plus_quote_plus s

/-- Decoding the query string built for the default mode: a safe-character
key, `=`, and the quote-plus encoded value parse back to exactly the one
configured pair. -/
theorem parse_qsl_pair (name q : String) (hplain : ∀ c ∈ name.data, isQuoteSafe c = true) :
    parse_qsl ⟨name.data ++ '=' :: (quote_plus q).data⟩ = [(name, q)] := by
  have hnoamp : ∀ c ∈ name.data ++ '=' :: (quote_plus q).data, c ≠ '&' := by
    intro c hc
    rcases List.mem_append.mp hc with h | h
    · have := hplain c h
      intro hEq; rw [hEq] at this; exact absurd this (by decide)
    · rcases List.mem_cons.mp h with h | h
      · rw [h]; decide
      · exact quote_plus_no_amp q c h
  have hnoeq : ∀ c ∈ name.data, c ≠ '=' := by
    intro c hc hEq
    have := hplain c hc
    rw [hEq] at this
    exact absurd this (by decide)
  have hne : name.data ++ '=' :: (quote_plus q).data ≠ [] := by simp
  rw [parse_qsl]
  show (((splitOnChar '&' (name.data ++ '=' :: (quote_plus q).data)).filter (· ≠ [])).map _) = _
  rw [splitOnChar_of_no_sep '&' _ hnoamp]
  rw [List.filter_cons_of_pos (by simp [hne]), List.filter_nil, List.map_cons,
    List.map_nil, splitFirstEq_append _ _ hnoeq]
  simp only [plain_unquote name.data hplain, mkString_data, unq_qp]

theorem intercalate_cons_cons (sep : List Char) (p p2 : List Char) (t : List (List Char)) :
    List.intercalate sep (p :: p2 :: t) = p ++ sep ++ List.intercalate sep (p2 :: t) := by
  simp [List.intercalate, List.intersperse]

theorem splitOnChar_intercalate (parts : List (List Char)) (hne : parts ≠ [])
    (h : ∀ p ∈ parts, ∀ c ∈ p, c ≠ '&') :
    splitOnChar '&' (List.intercalate ['&'] parts) = parts := by
  induction parts with
  | nil => exact absurd rfl hne
  | cons p t ih =>
    cases t with
    | nil =>
      rw [show List.intercalate ['&'] [p] = p by simp [List.intercalate, List.intersperse]]
      exact splitOnChar_of_no_sep '&' p (h p (List.mem_cons_self _ _))
    | cons p2 t2 =>
      rw [intercalate_cons_cons, List.append_assoc, List.singleton_append,
        splitOnChar_sep_append '&' p _ (h p (List.mem_cons_self _ _)),
        ih (by simp) (fun x hx => h x (List.mem_cons_of_mem _ hx))]

/-- `parse_qsl` is a left inverse of `urlencode` on arbitrary pairs of
strings: merging existing query parameters with `urlencode` loses no
pair. -/
theorem parse_qsl_urlencode (l : List (String × String)) : parse_qsl (urlencode l) = l := by
  cases l with
  | nil => rfl
  | cons kv0 t0 =>
    rw [parse_qsl, urlencode]
    show ((splitOnChar '&' (List.intercalate ['&']
        ((kv0 :: t0).map fun kv =>
          (quote_plus kv.1).data ++ '=' :: (quote_plus kv.2).data))).filter (· ≠ [])).map _ = _
    rw [splitOnChar_intercalate _ (by simp) (by
      intro p hp c hc
      rcases List.mem_map.mp hp with ⟨kv, _, hkv⟩
      rw [← hkv] at hc
      rcases List.mem_append.mp hc with h | h
      · exact quote_plus_no_amp _ c h
      · rcases List.mem_cons.mp h with h | h
        · rw [h]; decide
        · exact quote_plus_no_amp _ c h)]
    rw [List.filter_eq_self.mpr (by
      intro p hp
      rcases List.mem_map.mp hp with ⟨kv, _, hkv⟩
      simp [← hkv])]
    rw [List.map_map]
    have hpt : ∀ kv : String × String,
        (fun piece =>
          match splitFirstEq piece with
          | some (n, v) =>
            (String.mk (unquoteAux [] (n.map plusToSpace)),
             String.mk (unquoteAux [] (v.map plusToSpace)))
          | none => (String.mk (unquoteAux [] (piece.map plusToSpace)), ""))
          ((quote_plus kv.1).data ++ '=' :: (quote_plus kv.2).data) = kv := by
      intro kv
      simp only [splitFirstEq_append _ _ (quote_plus_no_eq kv.1)]
      show (String.mk (unquoteAux [] ((quote_plus kv.1).data.map plusToSpace)),
        String.mk (unquoteAux [] ((quote_plus kv.2).data.map plusToSpace))) = kv
      rw [unq_qp, unq_qp]
    calc ((kv0 :: t0).map _) = (kv0 :: t0).map id := List.map_congr_left (fun kv _ => hpt kv)
      _ = kv0 :: t0 := List.map_id _

/-! ## Lemmas: response mapping -/

theorem mapItem_skip (env : Env) (item : JValue) (h : keep item = false) :
    mapItem env item = .ok none := by
  cases item with
  | null => rfl
  | bool b => rfl
  | int n => rfl
  | str s => rfl
  | arr l => rfl
  | obj f =>
    rw [keep] at h
    cases hT : getJ "Title" f with
    | none => simp [mapItem, hT]
    | some t =>
      rw [hT] at h
      simp only [Option.getD_some] at h
      simp [mapItem, hT, h]

theorem resolveIcon_ok (env : Env) (f : List (String × JValue)) (h : iconOkB f = true) :
    resolveIconJ env (getJ "IcoPath" f) = .ok (iconT env f) := by
  cases hI : getJ "IcoPath" f with
  | none => simp [resolveIconJ, iconT, hI]
  | some v =>
    simp only [iconOkB, hI] at h
    cases htv : v.truthy with
    | false =>
      cases v with
      | str s =>
        rw [JValue.truthy] at htv
        simp only [decide_eq_false_iff_not, not_not] at htv
        simp [resolveIconJ, iconT, hI, JValue.truthy, htv]
      | null => simp [resolveIconJ, iconT, hI, htv]
      | bool b => simp [resolveIconJ, iconT, hI, htv]
      | int n => simp [resolveIconJ, iconT, hI, htv]
      | arr l => simp [resolveIconJ, iconT, hI, htv]
      | obj d => simp [resolveIconJ, iconT, hI, htv]
    | true =>
      rw [htv] at h
      simp only [Bool.not_true, Bool.false_or] at h
      cases v with
      | str s =>
        rw [JValue.truthy] at htv
        simp only [decide_eq_true_eq] at htv
        simp [resolveIconJ, iconT, hI, JValue.truthy, htv]
      | null => cases h
      | bool b => cases h
      | int n => cases h
      | arr l => cases h
      | obj d => cases h

theorem scoreOf_ok (f : List (String × JValue)) (h : scoreOkB f = true) :
    scoreOf f = .ok (scoreT f) := by
  rw [scoreOkB] at h
  cases hS : pyIntJ ((getJ "Score" f).getD (.int 0)) with
  | ok n => simp [scoreOf, scoreT, hS]
  | valErr m => rw [hS] at h; cases h
  | typeErr => rw [hS] at h; cases h

theorem rpcOf_ok (env : Env) (f : List (String × JValue)) (h : rpcOkB f = true) :
    rpcOf env f = .ok (rpcT env f) := by
  cases hR : getJ "JsonRPCAction" f with
  | none => simp [rpcOf, rpcT, hR]
  | some v =>
    cases v with
    | obj d =>
      cases hM : getJ "method" d with
      | none => simp [rpcOf, rpcT, hR, hM]
      | some m =>
        simp only [rpcOkB, hR, hM] at h
        cases htm : m.truthy with
        | false =>
          cases m with
          | str s =>
            rw [JValue.truthy] at htm
            simp only [decide_eq_false_iff_not, not_not] at htm
            simp [rpcOf, rpcT, hR, hM, JValue.truthy, htm]
          | null => simp [rpcOf, rpcT, hR, hM, htm]
          | bool b => simp [rpcOf, rpcT, hR, hM, htm]
          | int n => simp [rpcOf, rpcT, hR, hM, htm]
          | arr l => simp [rpcOf, rpcT, hR, hM, htm]
          | obj d2 => simp [rpcOf, rpcT, hR, hM, htm]
        | true =>
          rw [htm] at h
          simp only [Bool.not_true, Bool.false_or] at h
          cases m with
          | str s =>
            rw [JValue.truthy] at htm
            simp only [decide_eq_true_eq] at htm
            by_cases hm : env.hasMethod s
            · simp [rpcOf, rpcT, hR, hM, JValue.truthy, htm, hm]
            · simp [rpcOf, rpcT, hR, hM, JValue.truthy, htm, hm]
          | null => cases h
          | bool b => cases h
          | int n => cases h
          | arr l => cases h
          | obj d2 => cases h
    | null => simp [rpcOf, rpcT, hR]
    | bool b => simp [rpcOf, rpcT, hR]
    | int n => simp [rpcOf, rpcT, hR]
    | str s => simp [rpcOf, rpcT, hR]
    | arr l => simp [rpcOf, rpcT, hR]

theorem mapItem_ok (env : Env) (item : JValue) (hk : keep item = true)
    (ho : itemOk item = true) :
    mapItem env item = .ok (some (entryT env item)) := by
  cases item with
  | obj f =>
    rw [keep] at hk
    rw [itemOk, Bool.and_assoc, Bool.and_eq_true, Bool.and_eq_true] at ho
    obtain ⟨hic, hsc, hrp⟩ := ho
    cases hT : getJ "Title" f with
    | none => rw [hT] at hk; cases hk
    | some t =>
      rw [hT] at hk
      simp only [Option.getD_some] at hk
      simp [mapItem, hT, hk, resolveIcon_ok env f hic, scoreOf_ok f hsc, rpcOf_ok env f hrp,
        entryT]
  | null => cases hk
  | bool b => cases hk
  | int n => cases hk
  | str s => cases hk
  | arr l => cases hk

theorem mapLoop_filter (env : Env) (items : List JValue) (h : itemsOk items) :
    mapLoop env items = .ok ((items.filter keep).map (entryT env)) := by
  induction items with
  | nil => rfl
  | cons item rest ih =>
    have hrest : itemsOk rest := fun x hx => h x (List.mem_cons_of_mem _ hx)
    cases hk : keep item with
    | false =>
      rw [mapLoop, mapItem_skip env item hk, ih hrest, List.filter_cons_of_neg (by simp [hk])]
    | true =>
      have ho : itemOk item = true := by
        rcases h item (List.mem_cons_self _ _) with hf | ho
        · rw [hk] at hf; cases hf
        · exact ho
      rw [mapLoop, mapItem_ok env item hk ho, ih hrest,
        List.filter_cons_of_pos (by simp [hk]), List.map_cons]

theorem ctxItem_skip (env : Env) (item : JValue) (h : keep item = false) :
    ctxItem env item = .ok none := by
  cases item with
  | null => rfl
  | bool b => rfl
  | int n => rfl
  | str s => rfl
  | arr l => rfl
  | obj f =>
    rw [keep] at h
    cases hT : getJ "Title" f with
    | none => simp [ctxItem, hT]
    | some t =>
      rw [hT] at h
      simp only [Option.getD_some] at h
      simp [ctxItem, hT, h]

theorem ctxItem_ok (env : Env) (item : JValue) (hk : keep item = true)
    (ho : ctxItemOk item = true) :
    ctxItem env item = .ok (some (dropExtras (entryT env item))) := by
  cases item with
  | obj f =>
    rw [keep] at hk
    rw [ctxItemOk, Bool.and_eq_true] at ho
    obtain ⟨hic, hrp⟩ := ho
    cases hT : getJ "Title" f with
    | none => rw [hT] at hk; cases hk
    | some t =>
      rw [hT] at hk
      simp only [Option.getD_some] at hk
      simp [ctxItem, hT, hk, resolveIcon_ok env f hic, rpcOf_ok env f hrp, entryT, dropExtras]
  | null => cases hk
  | bool b => cases hk
  | int n => cases hk
  | str s => cases hk
  | arr l => cases hk

theorem ctxLoop_filter (env : Env) (items : List JValue) (h : ctxItemsOk items) :
    ctxLoop env items = .ok (((items.filter keep).map (entryT env)).map dropExtras) := by
  induction items with
  | nil => rfl
  | cons item rest ih =>
    have hrest : ctxItemsOk rest := fun x hx => h x (List.mem_cons_of_mem _ hx)
    cases hk : keep item with
    | false =>
      rw [ctxLoop, ctxItem_skip env item hk, ih hrest, List.filter_cons_of_neg (by simp [hk])]
    | true =>
      have ho : ctxItemOk item = true := by
        rcases h item (List.mem_cons_self _ _) with hf | ho
        · rw [hk] at hf; cases hf
        · exact ho
      rw [ctxLoop, ctxItem_ok env item hk ho, ih hrest,
        List.filter_cons_of_pos (by simp [hk]), List.map_cons, List.map_cons]

theorem mapLoop_error_append (env : Env) (a : List JValue) (l : List Entry)
    (ha : mapLoop env a = .ok l) (x : JValue) (e : PyExc) (hx : mapItem env x = .error e)
    (r : List JValue) : mapLoop env (a ++ x :: r) = .error e := by
  induction a generalizing l with
  | nil =>
    rw [List.nil_append, mapLoop, hx]
  | cons it tl ih =>
    rw [mapLoop] at ha
    rw [List.cons_append, mapLoop]
    cases hit : mapItem env it with
    | error e2 => rw [hit] at ha; cases ha
    | ok o =>
      rw [hit] at ha
      cases o with
      | none => exact ih l ha
      | some e2 =>
        cases ht : mapLoop env tl with
        | error e3 => rw [ht] at ha; cases ha
        | ok l2 => rw [ih l2 ht]

/-! ## Lemmas: dictionary key removal (for the callback-descriptor claim) -/

theorem getJ_removeKey_self (k : String) (f : List (String × JValue)) :
    getJ k (removeKey k f) = none := by
  induction f with
  | nil => rfl
  | cons kv t ih =>
    by_cases hk : kv.1 = k
    · simp [removeKey, hk] at ih ⊢
      exact ih
    · simp only [removeKey, List.filter_cons] at ih ⊢
      rw [if_pos (by simpa using hk), getJ, if_neg hk]
      exact ih

theorem getJ_removeKey_ne (k k2 : String) (hne : k2 ≠ k) (f : List (String × JValue)) :
    getJ k2 (removeKey k f) = getJ k2 f := by
  induction f with
  | nil => rfl
  | cons kv t ih =>
    by_cases hk : kv.1 = k
    · have hk2 : kv.1 ≠ k2 := by rw [hk]; exact fun hEq => hne hEq.symm
      simp only [removeKey, List.filter_cons] at ih ⊢
      rw [if_neg (by simpa using hk), getJ, if_neg hk2]
      exact ih
    · simp only [removeKey, List.filter_cons] at ih ⊢
      rw [if_pos (by simpa using hk), getJ, getJ]
      by_cases h2 : kv.1 = k2
      · rw [if_pos h2, if_pos h2]
      · rw [if_neg h2, if_neg h2]
        exact ih

theorem rpcRejected_rpcOkB (env : Env) (f : List (String × JValue))
    (h : rpcRejected env f) : rpcOkB f = true := by
  cases hR : getJ "JsonRPCAction" f with
  | none => simp only [rpcRejected, hR] at h
  | some v =>
    cases v with
    | obj d =>
      cases hM : getJ "method" d with
      | none => simp [rpcOkB, hR, hM]
      | some m =>
        simp only [rpcRejected, hR, hM] at h
        rcases h with h | ⟨s, hs, _⟩
        · simp [rpcOkB, hR, hM, h]
        · simp [rpcOkB, hR, hM, hs]
    | null => simp [rpcOkB, hR]
    | bool b => simp [rpcOkB, hR]
    | int n => simp [rpcOkB, hR]
    | str s => simp [rpcOkB, hR]
    | arr l => simp [rpcOkB, hR]

theorem rpcRejected_rpcT (env : Env) (f : List (String × JValue))
    (h : rpcRejected env f) : rpcT env f = none := by
  cases hR : getJ "JsonRPCAction" f with
  | none => simp only [rpcRejected, hR] at h
  | some v =>
    cases v with
    | obj d =>
      cases hM : getJ "method" d with
      | none => simp [rpcT, hR, hM]
      | some m =>
        simp only [rpcRejected, hR, hM] at h
        cases m with
        | str s =>
          rcases h with h | ⟨s2, hs2, hm2⟩
          · rw [JValue.truthy] at h
            simp only [decide_eq_false_iff_not, not_not] at h
            simp [rpcT, hR, hM, h]
          · cases hs2
            simp [rpcT, hR, hM, hm2]
        | null => simp [rpcT, hR, hM]
        | bool b => simp [rpcT, hR, hM]
        | int n => simp [rpcT, hR, hM]
        | arr l => simp [rpcT, hR, hM]
        | obj d2 => simp [rpcT, hR, hM]
    | null => simp [rpcT, hR]
    | bool b => simp [rpcT, hR]
    | int n => simp [rpcT, hR]
    | str s => simp [rpcT, hR]
    | arr l => simp [rpcT, hR]

/-! ## Lemmas: per-key settings defaults -/

theorem strField_bad (d : String) (v : Option YValue) (h : strBadB v = true) :
    strField d v = d := by
  cases v with
  | none => rfl
  | some y => cases y with
    | str s => cases h
    | null => rfl
    | bool b => rfl
    | int n => rfl
    | list l => rfl
    | map m => rfl

theorem ueqField_bad (v : Option YValue) (h : ueqBadB v = true) : ueqField v = true := by
  cases v with
  | none => rfl
  | some y => cases y with
    | bool b => cases h
    | str s =>
      simp only [ueqBadB, Bool.not_eq_true', Bool.or_eq_false_iff, decide_eq_false_iff_not] at h
      simp [ueqField, h.1, h.2]
    | null => rfl
    | int n => rfl
    | list l => rfl
    | map m => rfl

theorem rtField_bad (v : Option YValue) (h : rtBadB v = true) : (rtField v).1 = 5 := by
  cases v with
  | none => rfl
  | some y =>
    rw [rtField]
    cases hp : pyIntY y with
    | ok n =>
      simp only [rtBadB, hp, decide_eq_true_eq] at h
      simp [h]
    | valErr m => rfl
    | typeErr => rfl

/-! ## Lemmas: fallback entries and totality -/

theorem queryResults_of_empty (env : Env) (st : Settings) (param : String) (t : Transport)
    (h : queryRaw env st param t = []) :
    queryResults env st param t =
      if pstrip param ≠ "" then [noResultsEntry env param] else [readyEntry env] := by
  rw [queryResults, h]
  rfl

/-! ## Lemmas: the callback descriptor is severable from the entry -/

theorem keep_removeRpc (f : List (String × JValue)) :
    keep (.obj (removeKey "JsonRPCAction" f)) = keep (.obj f) := by
  simp [keep, getJ_removeKey_ne "JsonRPCAction" "Title" (by decide) f]

theorem iconOkB_removeRpc (f : List (String × JValue)) :
    iconOkB (removeKey "JsonRPCAction" f) = iconOkB f := by
  simp [iconOkB, getJ_removeKey_ne "JsonRPCAction" "IcoPath" (by decide) f]

theorem scoreOkB_removeRpc (f : List (String × JValue)) :
    scoreOkB (removeKey "JsonRPCAction" f) = scoreOkB f := by
  simp [scoreOkB, getJ_removeKey_ne "JsonRPCAction" "Score" (by decide) f]

theorem rpcOkB_removeRpc (f : List (String × JValue)) :
    rpcOkB (removeKey "JsonRPCAction" f) = true := by
  simp [rpcOkB, getJ_removeKey_self]

theorem entryT_removeRpc (env : Env) (f : List (String × JValue))
    (h : rpcRejected env f) :
    entryT env (.obj (removeKey "JsonRPCAction" f)) = entryT env (.obj f) := by
  have hT := getJ_removeKey_ne "JsonRPCAction" "Title" (by decide) f
  have hS := getJ_removeKey_ne "JsonRPCAction" "SubTitle" (by decide) f
  have hA := getJ_removeKey_ne "JsonRPCAction" "AutoCompleteText" (by decide) f
  have hIc : iconT env (removeKey "JsonRPCAction" f) = iconT env f := by
    rw [iconT, iconT, getJ_removeKey_ne "JsonRPCAction" "IcoPath" (by decide) f]
  have hScT : scoreT (removeKey "JsonRPCAction" f) = scoreT f := by
    rw [scoreT, scoreT, getJ_removeKey_ne "JsonRPCAction" "Score" (by decide) f]
  have hCtx : ctxOf (removeKey "JsonRPCAction" f) = ctxOf f := by
    rw [ctxOf, ctxOf, getJ_removeKey_ne "JsonRPCAction" "ContextData" (by decide) f,
      getJ_removeKey_ne "JsonRPCAction" "ContextMenuItems" (by decide) f]
  have hRpc : rpcT env (removeKey "JsonRPCAction" f) = none := by
    rw [rpcT, getJ_removeKey_self]
  simp only [entryT, hT, hS, hA, hIc, hScT, hCtx, hRpc, rpcRejected_rpcT env f h]

theorem contextMenu_arr (env : Env) (f : List (String × JValue)) (items : List JValue)
    (hget : getJ "defined_menu_items" f = some (.arr items)) (l : List Entry)
    (hloop : ctxLoop env items = .ok l) :
    contextMenu env (.obj f) = .ok (if l.isEmpty then [ctxPlaceholder env (.obj f)] else l) := by
  rw [contextMenu]
  simp only [hget, hloop]
  split <;> rfl

/-! ## The claims -/

/-- C1 (corrected): the claim quantifies over every server response, but an
element whose `Score` is an unconvertible string aborts the whole mapping
(see C10): at the response `[{"Title":"A"}, {"Title":"B","Score":"x"}]`
the query yields one `Error: ValueError` entry instead of the per-element
mapping the claim predicts (no entry titled `"A"` survives). -/
theorem claim1_cex :
    queryResults env0 defaultSettings "k"
        (.resp (.ok (.arr [.obj [("Title", .str "A")],
          .obj [("Title", .str "B"), ("Score", .str "x")]]))) =
      [⟨.str "Error: ValueError", some (.str "invalid literal for int() with base 10: 'x'"),
        "ICON", none, none, none, none⟩] ∧
    (JValue.str "Error: ValueError") ≠ .str "A" := by
  refine ⟨rfl, fun h => ?_⟩
  injection h with h2
  exact absurd h2 (by decide)

/-- C1 (amended): for every response array whose retained elements are
benign (`int()`-convertible score, string-or-falsy icon path, string-or-
falsy callback method), the mapping loop maps each element in source
order, silently skipping exactly the elements that are not objects or lack
a truthy `Title`; in particular the response
`[{"Title":"A"}, {"NoTitle":true}, {"Title":"B","Score":5}]` yields
exactly the two entries titled `"A"` and `"B"` in that order with scores
0 and 5. -/
theorem claim1_amended :
    (∀ (env : Env) (items : List JValue), itemsOk items →
      mapLoop env items = .ok ((items.filter keep).map (entryT env))) ∧
    queryResults env0 defaultSettings "k"
        (.resp (.ok (.arr [.obj [("Title", .str "A")], .obj [("NoTitle", .bool true)],
          .obj [("Title", .str "B"), ("Score", .int 5)]]))) =
      [⟨.str "A", some (.str ""), "ICON", some 0, none, none, none⟩,
       ⟨.str "B", some (.str ""), "ICON", some 5, none, none, none⟩] :=
  ⟨fun env items h => mapLoop_filter env items h, rfl⟩

/-- Witness for C1: the amended mapping law applied to a concrete benign
response. -/
theorem claim1_amended_witness :
    itemsOk [JValue.obj [("Title", .str "A")], JValue.obj [("NoTitle", .bool true)]] ∧
    mapLoop env0 [JValue.obj [("Title", .str "A")], JValue.obj [("NoTitle", .bool true)]] =
      .ok (([JValue.obj [("Title", .str "A")],
        JValue.obj [("NoTitle", .bool true)]].filter keep).map (entryT env0)) :=
  ⟨by decide, claim1_amended.1 env0 _ (by decide)⟩

set_option maxHeartbeats 1600000 in
/-- C2 (confirmed): in default mode with `url_encode_query` true and a
query-parameter name made of quote-safe characters, the query component of
the constructed URL decodes back (via `parse_qsl`) to exactly the single
pair mapping the configured name to the raw query string. -/
theorem claim2_roundtrip (st : Settings) (q : String) (parts : SplitResult)
    (henc : st.url_encode_query = true)
    (hname : ∀ c ∈ st.query_param_name.data, isQuoteSafe c = true)
    (h : buildLegacyParts st q = .ok parts) :
    parse_qsl parts.query = [(st.query_param_name, q)] := by
  have hq : parts.query = legacyQuery st q := by
    rw [buildLegacyParts] at h
    by_cases hh : legacyHost st = ""
    · rw [if_pos hh] at h; exact Except.noConfusion h
    · rw [if_neg hh] at h
      rcases hhp : (legacyHostPort st).2 with _ | p
      · rw [hhp, legacyWithPort] at h
        rw [← Except.ok.inj h]
      · rw [hhp, legacyWithPort] at h
        rcases hpv : portVal p with e | port
        · rw [hpv] at h; exact Except.noConfusion h
        · rw [hpv] at h
          rw [← Except.ok.inj h]
  rw [hq, legacyQuery, henc, if_pos rfl]
  have hdata : st.query_param_name ++ "=" ++ quote_plus q =
      String.mk (st.query_param_name.data ++ '=' :: (quote_plus q).data) := by
    apply String.ext
    simp [String.data_append]
  rw [hdata]
  exact parse_qsl_pair _ _ hname

/-- Witness for C2: the default settings (`q`, encoding on) with query
`"a b"`; the legacy URL parts carry query string `q=a+b`, which decodes to
`[("q", "a b")]`. -/
theorem claim2_roundtrip_witness :
    parse_qsl (SplitResult.mk "http" "127.0.0.1:8080" "/" "q=a+b" "").query
      = [("q", "a b")] :=
  claim2_roundtrip defaultSettings "a b" ⟨"http", "127.0.0.1:8080", "/", "q=a+b", ""⟩
    rfl (by decide) rfl

/-- C3 (counterexample): with a placeholder-free template the appended
value is re-encoded by `urlencode`, so with the encode flag set the value
is percent-encoded twice (`a b` → `a%2Bb`, not `a+b`/`a%20b`), and with
the flag clear it is still percent-encoded once (`a+b`, not the raw
`a b`) — contradicting "percent-encoded exactly when the encode flag is
set (and not encoded otherwise)". -/
theorem claim3_cex :
    buildUrl { defaultSettings with custom_url_template := "http://x/y" } "a b"
        = .ok "http://x/y?q=a%2Bb" ∧
    ("http://x/y?q=a%2Bb" : String) ≠ "http://x/y?q=a+b" ∧
    ("http://x/y?q=a%2Bb" : String) ≠ "http://x/y?q=a%20b" ∧
    buildUrl { defaultSettings with custom_url_template := "http://x/y", url_encode_query := false } "a b"
      = .ok "http://x/y?q=a+b" ∧
    ("http://x/y?q=a+b" : String) ≠ "http://x/y?q=a b" :=
  ⟨rfl, by decide, by decide, rfl, by decide⟩

/-- C3 (amended): for every query string and non-empty template containing
neither `{query}` nor `{encoded_query}`, the query is appended as one
additional parameter under the configured key, merged with the template's
existing query parameters; the appended value is first quote-plus encoded
exactly when the encode flag is set, and the merged pair list is then
re-encoded as a whole by `urlencode` (hence a set flag double-encodes);
e.g. template `http://x/y`, name `q`, query `cat` gives
`http://x/y?q=cat`. -/
theorem claim3_amended :
    buildUrl { defaultSettings with custom_url_template := "http://x/y" } "cat"
        = .ok "http://x/y?q=cat" ∧
    ∀ (tmpl name param : String) (enc : Bool),
      hasSubstr "{encoded_query}" tmpl = false →
      hasSubstr "{query}" tmpl = false →
      parse_qsl (customUrlParts tmpl name enc param).query =
        parse_qsl (urlsplitS (withHttpScheme (substAll tmpl name param))).query ++
          [(name, if enc then quote_plus param else param)] := by
  refine ⟨rfl, fun tmpl name param enc h1 h2 => ?_⟩
  rw [customUrlParts, if_pos ⟨by simp [h1], by simp [h2]⟩]
  exact parse_qsl_urlencode _

/-- Witness for C3: the amended merge law at template `http://x/y`, key
`q`, query `cat`, encode flag set. -/
theorem claim3_amended_witness :
    hasSubstr "{encoded_query}" "http://x/y" = false ∧
    hasSubstr "{query}" "http://x/y" = false ∧
    parse_qsl (customUrlParts "http://x/y" "q" true "cat").query =
      parse_qsl (urlsplitS (withHttpScheme (substAll "http://x/y" "q" "cat"))).query ++
        [("q", if true then quote_plus "cat" else "cat")] :=
  ⟨rfl, rfl, claim3_amended.2 "http://x/y" "q" "cat" true rfl rfl⟩

/-- C4 (confirmed): each recognized settings key whose value is absent,
malformed, or of the wrong type takes its documented default,
independently of the rest of the mapping and without failing the request
(the merge is total); in particular `request_timeout` values `"0"`,
`"-3"` and `"abc"` all yield an effective timeout of 5. -/
theorem claim4_defaults :
    (∀ m : List (String × YValue),
      (strBadB (yLookup "server_address" m) = true →
        (mergeSettings m).server_address = "http://127.0.0.1") ∧
      (strBadB (yLookup "server_port" m) = true → (mergeSettings m).server_port = "8080") ∧
      (strBadB (yLookup "server_path" m) = true → (mergeSettings m).server_path = "/") ∧
      (strBadB (yLookup "query_param_name" m) = true →
        (mergeSettings m).query_param_name = "q") ∧
      (ueqBadB (yLookup "url_encode_query" m) = true →
        (mergeSettings m).url_encode_query = true) ∧
      (rtBadB (yLookup "request_timeout" m) = true →
        (mergeSettings m).request_timeout = 5 ∧ queryTimeout (mergeSettings m) = 5) ∧
      (strBadB (yLookup "custom_url_template" m) = true →
        (mergeSettings m).custom_url_template = "")) ∧
    queryTimeout (mergeSettings [("request_timeout", .str "0")]) = 5 ∧
    queryTimeout (mergeSettings [("request_timeout", .str "-3")]) = 5 ∧
    queryTimeout (mergeSettings [("request_timeout", .str "abc")]) = 5 := by
  refine ⟨fun m => ⟨fun h => ?_, fun h => ?_, fun h => ?_, fun h => ?_, fun h => ?_,
    fun h => ?_, fun h => ?_⟩, rfl, rfl, rfl⟩
  · exact strField_bad _ _ h
  · exact strField_bad _ _ h
  · exact strField_bad _ _ h
  · exact strField_bad _ _ h
  · exact ueqField_bad _ h
  · have h5 : (mergeSettings m).request_timeout = 5 := rtField_bad _ h
    refine ⟨h5, ?_⟩
    rw [queryTimeout, h5]
    rfl
  · show (if (rtField (yLookup "request_timeout" m)).2 then ""
      else strField "" (yLookup "custom_url_template" m)) = ""
    split
    · rfl
    · exact strField_bad _ _ h

/-- Witness for C4: a settings map with every key malformed takes all
defaults, and a `request_timeout` of `"abc"` yields timeout 5. -/
theorem claim4_defaults_witness :
    (mergeSettings [("server_port", YValue.int 9090),
        ("request_timeout", YValue.str "abc")]).server_port = "8080" ∧
    (mergeSettings [("server_port", YValue.int 9090),
      ("request_timeout", YValue.str "abc")]).request_timeout = 5 ∧
    queryTimeout (mergeSettings [("server_port", YValue.int 9090),
      ("request_timeout", YValue.str "abc")]) = 5 := by
  refine ⟨(claim4_defaults.1 _).2.1 (by decide), ?_, ?_⟩
  · exact ((claim4_defaults.1 _).2.2.2.2.2.1 (by decide)).1
  · exact ((claim4_defaults.1 _).2.2.2.2.2.1 (by decide)).2

/-- C5 (counterexample): with a non-empty query and zero surviving
entries, the single fallback entry is titled `No results` — the query text
appears only in its subtitle, not in a title
`No results for '<query>'` as the claim states. -/
theorem claim5_cex :
    queryResults env0 defaultSettings "cat" (.resp (.ok (.arr []))) =
      [⟨.str "No results", some (.str "Query 'cat' from server."), "ICON",
        none, none, none, none⟩] ∧
    (JValue.str "No results") ≠ .str "No results for 'cat'" := by
  refine ⟨rfl, fun h => ?_⟩
  injection h with h2
  exact absurd h2 (by decide)

/-- C5 (amended): whenever zero entries survive (and no handler fired), a
non-blank query yields exactly one entry titled `No results` with subtitle
`Query '<query>' from server.`, and a blank query yields exactly one ready
entry titled `HTTP Query Forwarder Ready` pointing at the settings
file. -/
theorem claim5_amended (env : Env) (st : Settings) (param : String) (t : Transport)
    (h : queryRaw env st param t = []) :
    queryResults env st param t =
      if pstrip param ≠ "" then
        [⟨.str "No results", some (.str ("Query '" ++ param ++ "' from server.")),
          env.defaultIcon, none, none, none, none⟩]
      else
        [⟨.str "HTTP Query Forwarder Ready",
          some (.str "Enter query. Config: ...\\Documents\\httpflow\\settings.yaml"),
          env.defaultIcon, none, none, none, none⟩] :=
  queryResults_of_empty env st param t h

/-- Witness for C5: the empty server response with query `"cat"`. -/
theorem claim5_amended_witness :
    queryRaw env0 defaultSettings "cat" (.resp (.ok (.arr []))) = [] ∧
    queryResults env0 defaultSettings "cat" (.resp (.ok (.arr []))) =
      (if pstrip "cat" ≠ "" then
        [⟨.str "No results", some (.str ("Query '" ++ "cat" ++ "' from server.")),
          env0.defaultIcon, none, none, none, none⟩]
      else
        [⟨.str "HTTP Query Forwarder Ready",
          some (.str "Enter query. Config: ...\\Documents\\httpflow\\settings.yaml"),
          env0.defaultIcon, none, none, none, none⟩]) :=
  ⟨rfl, claim5_amended env0 defaultSettings "cat" _ rfl⟩

/-- C6 (confirmed): a payload carrying a `defined_menu_items` list maps
each benign item through the same title/subtitle/icon/callback rules as
query mapping with score, autocomplete and context data removed
(`dropExtras` of `entryT`); when no menu entries result, exactly one
placeholder entry is returned whose text distinguishes a payload carrying
the `original_data` key from one that does not; an entry with
`ContextMenuItems:[{"Title":"X"}]` yields a payload whose context menu is
exactly one entry titled `"X"`. -/
theorem claim6_context_menu :
    (∀ (env : Env) (orig : JValue) (items : List JValue), ctxItemsOk items →
      contextMenu env (.obj [("original_data", orig), ("defined_menu_items", .arr items)]) =
        .ok (if (((items.filter keep).map (entryT env)).map dropExtras).isEmpty then
              [⟨.str "No specific context actions (original data present)", none,
                env.defaultIcon, none, none, none, none⟩]
             else ((items.filter keep).map (entryT env)).map dropExtras)) ∧
    (∀ (env : Env) (data : JValue), emptyMenuData data →
      contextMenu env data = .ok [ctxPlaceholder env data]) ∧
    queryResults env0 defaultSettings "k"
        (.resp (.ok (.arr [.obj [("Title", .str "A"),
          ("ContextMenuItems", .arr [.obj [("Title", .str "X")]])]]))) =
      [⟨.str "A", some (.str ""), "ICON", some 0, none,
        some (.obj [("original_data", .null),
          ("defined_menu_items", .arr [.obj [("Title", .str "X")]])]), none⟩] ∧
    contextMenu env0 (.obj [("original_data", .null),
        ("defined_menu_items", .arr [.obj [("Title", .str "X")]])]) =
      .ok [⟨.str "X", some (.str ""), "ICON", none, none, none, none⟩] := by
  refine ⟨fun env orig items h => ?_, fun env data h => ?_, rfl, rfl⟩
  · rw [contextMenu_arr env
      [("original_data", orig), ("defined_menu_items", JValue.arr items)] items rfl _
      (ctxLoop_filter env items h)]
    cases hl : (((items.filter keep).map (entryT env)).map dropExtras).isEmpty
    · rw [if_neg (by simp [hl]), if_neg (by simp [hl])]
    · rw [if_pos (by simp [hl]), if_pos (by simp [hl])]
      rfl
  · cases data with
    | obj f =>
      cases hD : getJ "defined_menu_items" f with
      | none => rw [contextMenu]; simp only [hD]; rfl
      | some v =>
        cases v with
        | str s => rw [contextMenu]; simp only [hD]; rfl
        | obj d => rw [contextMenu]; simp only [hD]; rfl
        | arr l =>
          have hl : l = [] := by simpa [emptyMenuData, hD] using h
          subst hl
          rw [contextMenu]
          simp only [hD]
          rfl
        | null => simp [emptyMenuData, hD] at h
        | bool b => simp [emptyMenuData, hD] at h
        | int n => simp [emptyMenuData, hD] at h
    | null => rfl
    | bool b => rfl
    | int n => rfl
    | str s => rfl
    | arr l => rfl

/-- Witness for C6: the wrapper payload for one menu item titled `"X"`
(hypotheses discharged at this concrete payload). -/
theorem claim6_context_menu_witness :
    ctxItemsOk [JValue.obj [("Title", .str "X")]] ∧
    emptyMenuData (JValue.str "opaque") ∧
    contextMenu env0 (.obj [("original_data", .null),
        ("defined_menu_items", .arr [.obj [("Title", .str "X")]])]) =
      .ok (if ((([JValue.obj [("Title", .str "X")]].filter keep).map
            (entryT env0)).map dropExtras).isEmpty then
          [⟨.str "No specific context actions (original data present)", none,
            env0.defaultIcon, none, none, none, none⟩]
        else (([JValue.obj [("Title", .str "X")]].filter keep).map
          (entryT env0)).map dropExtras) ∧
    contextMenu env0 (.str "opaque") = .ok [ctxPlaceholder env0 (.str "opaque")] :=
  ⟨by decide, trivial,
    claim6_context_menu.1 env0 .null [JValue.obj [("Title", .str "X")]] (by decide),
    claim6_context_menu.2.1 env0 (.str "opaque") trivial⟩

/-- C7 (counterexample): a callback descriptor whose `method` is a truthy
non-string (here the integer 5) makes `hasattr` raise `TypeError`, so the
whole result list degrades to one generic plugin-error entry — the entry
itself is not kept, contradicting "the descriptor alone is dropped, the
rest of the entry is kept ... and no exception is raised". -/
theorem claim7_cex :
    queryResults env1 defaultSettings "k"
        (.resp (.ok (.arr [.obj [("Title", .str "A"),
          ("JsonRPCAction", .obj [("method", .int 5)])]]))) =
      [⟨.str "Error: Plugin Error", some (.str "Unexpected. Check logs."), "ICON",
        none, none, none, none⟩] ∧
    (JValue.str "Error: Plugin Error") ≠ .str "A" := by
  refine ⟨rfl, fun h => ?_⟩
  injection h with h2
  exact absurd h2 (by decide)

/-- C7 (amended): for a retained, otherwise benign element whose callback
descriptor is rejected (missing, falsy, or unknown-string method), the
element maps exactly as if the descriptor key were absent: the produced
entry equals the descriptor-free entry and carries no callback, without
raising.  A truthy non-string method instead raises internally (see the
counterexample). -/
theorem claim7_amended (env : Env) (f : List (String × JValue))
    (hk : keep (.obj f) = true) (hic : iconOkB f = true) (hsc : scoreOkB f = true)
    (hrej : rpcRejected env f) :
    mapItem env (.obj f) = mapItem env (.obj (removeKey "JsonRPCAction" f)) ∧
    mapItem env (.obj f) = .ok (some (entryT env (.obj f))) ∧
    (entryT env (.obj f)).jsonRPCAction = none := by
  have hok : itemOk (.obj f) = true := by
    simp [itemOk, hic, hsc, rpcRejected_rpcOkB env f hrej]
  have hok2 : itemOk (.obj (removeKey "JsonRPCAction" f)) = true := by
    simp [itemOk, iconOkB_removeRpc, scoreOkB_removeRpc, rpcOkB_removeRpc, hic, hsc]
  have h1 := mapItem_ok env _ hk hok
  have h2 := mapItem_ok env _ (by rw [keep_removeRpc]; exact hk) hok2
  refine ⟨?_, h1, rpcRejected_rpcT env f hrej⟩
  rw [h1, h2, entryT_removeRpc env f hrej]

/-- Witness for C7: an entry titled `"A"` with an unknown string method
(no methods are callable in `env0`). -/
theorem claim7_amended_witness :
    mapItem env0 (.obj [("Title", .str "A"),
        ("JsonRPCAction", .obj [("method", .str "nosuch")])]) =
      mapItem env0 (.obj (removeKey "JsonRPCAction" [("Title", .str "A"),
        ("JsonRPCAction", .obj [("method", .str "nosuch")])])) ∧
    mapItem env0 (.obj [("Title", .str "A"),
        ("JsonRPCAction", .obj [("method", .str "nosuch")])]) =
      .ok (some (entryT env0 (.obj [("Title", .str "A"),
        ("JsonRPCAction", .obj [("method", .str "nosuch")])]))) ∧
    (entryT env0 (.obj [("Title", .str "A"),
      ("JsonRPCAction", .obj [("method", .str "nosuch")])])).jsonRPCAction = none :=
  claim7_amended env0 _ (by decide) (by decide) (by decide)
    (Or.inr ⟨"nosuch", rfl, rfl⟩)

/-- C8 (confirmed): the query invocation is modelled as a total function —
every arm of the exception taxonomy is consumed by a handler — and every
path, failure paths included, returns a valid non-empty result list. -/
theorem claim8_never_raises (env : Env) (st : Settings) (param : String) (t : Transport) :
    1 ≤ (queryResults env st param t).length := by
  rw [queryResults]
  cases hr : queryRaw env st param t with
  | nil => simp only [List.isEmpty_nil, if_true]; split <;> simp
  | cons e r => simp

/-- C9 (confirmed): the custom template `http://x/y?{encoded_query}` with
query `a b` produces exactly `http://x/y?a+b` — the placeholder is
substituted with the quote-plus encoding and no additional query parameter
is appended under the configured key. -/
theorem claim9_template_url :
    buildUrl { defaultSettings with
        custom_url_template := "http://x/y?{encoded_query}" } "a b"
      = .ok "http://x/y?a+b" := rfl

/-- C10 (confirmed): if the response array contains an object with a
truthy title whose `Score` is a string `int()` cannot parse, the whole
result list — the successfully mapped prefix included — is replaced by the
single synthetic `Error: ValueError` entry. -/
theorem claim10_score_error (env : Env) (st : Settings) (param url : String)
    (pre : List JValue) (l : List Entry) (f : List (String × JValue)) (s : String)
    (rest : List JValue)
    (hurl : buildUrl st param = .ok url)
    (hpre : mapLoop env pre = .ok l)
    (hT : keep (.obj f) = true)
    (hic : iconOkB f = true)
    (hS : getJ "Score" f = some (.str s))
    (hs : pyIntOfString s = none) :
    queryResults env st param (.resp (.ok (.arr (pre ++ JValue.obj f :: rest)))) =
      [errEntry env.defaultIcon url
        (.valueError ("invalid literal for int() with base 10: '" ++ s ++ "'"))] := by
  have hsc : scoreOf f =
      .error (.valueError ("invalid literal for int() with base 10: '" ++ s ++ "'")) := by
    rw [scoreOf, hS]
    simp [pyIntJ, hs]
  have hitem : mapItem env (.obj f) =
      .error (.valueError ("invalid literal for int() with base 10: '" ++ s ++ "'")) := by
    rw [keep] at hT
    cases hTT : getJ "Title" f with
    | none => rw [hTT] at hT; cases hT
    | some t =>
      rw [hTT] at hT
      simp only [Option.getD_some] at hT
      simp [mapItem, hTT, hT, resolveIcon_ok env f hic, hsc]
  have hloop := mapLoop_error_append env pre l hpre _ _ hitem rest
  rw [queryResults, queryRaw, hurl]
  simp only [hloop]
  rfl

/-- Witness for C10: the response `[{"Title":"A"},
{"Title":"B","Score":"x"}]` under the default settings — the mapped entry
for `"A"` is discarded and the single data-error entry is returned. -/
theorem claim10_score_error_witness :
    queryResults env0 defaultSettings "k"
        (.resp (.ok (.arr ([JValue.obj [("Title", .str "A")]] ++
          JValue.obj [("Title", .str "B"), ("Score", .str "x")] :: [])))) =
      [errEntry env0.defaultIcon "http://127.0.0.1:8080/?q=k"
        (.valueError ("invalid literal for int() with base 10: '" ++ "x" ++ "'"))] :=
  claim10_score_error env0 defaultSettings "k" "http://127.0.0.1:8080/?q=k"
    [JValue.obj [("Title", .str "A")]]
    [⟨.str "A", some (.str ""), "ICON", some 0, none, none, none⟩]
    [("Title", .str "B"), ("Score", .str "x")] "x" []
    rfl rfl (by decide) (by decide) rfl rfl

end HttpFlow
